import Mathlib

/-!
Verification development for the `msf-aux-auditor` command-line tool.

The repository is a thin orchestration layer: a configuration loader with a
module-path validator (`config.py`), two Metasploit RPC module runners
(`msf_client.py`, `msf_runner.py`), an AI module selector with a client-side
priority filter (`ai_module_selector.py`), an AI result analyzer with a JSON
fallback path (`ai_analyzer.py`), a report accumulator with JSON/YAML/text
sinks (`reporter.py`), and a typer CLI (`cli.py`).

This file gives a shallow embedding of those components.  Python dictionaries
are modelled by the insertion-ordered association structure `JsonFields`,
Python JSON values by the mutual inductive `Json`, and calls into external
collaborators (the Metasploit RPC client, the AI chat-completion providers,
`json.loads` applied to provider text) are modelled as explicit parameters of
the embedded functions.  Machine floating-point quantities (wall-clock elapsed
seconds) are modelled by discrete tick counts.
-/

/-! ### Character and string helpers

Python string primitives used by the sources (`str.replace`,
`str.startswith`) re-implemented over `List Char` by structural recursion so
that every definition evaluates inside the kernel. -/

def isWsChar (c : Char) : Bool :=
  c = ' ' || c = '\n' || c = '\t' || c = '\r'

def isDigitB (c : Char) : Bool :=
  decide (48 ≤ c.toNat) && decide (c.toNat ≤ 57)

def digitVal (c : Char) : Nat := c.toNat - 48

def digitChar (n : Nat) : Char := Char.ofNat (48 + n)

def natDigitsAux : Nat → Nat → List Char
  | 0, _ => []
  | fuel + 1, n => if n = 0 then [] else natDigitsAux fuel (n / 10) ++ [digitChar (n % 10)]

def natChars (n : Nat) : List Char := if n = 0 then ['0'] else natDigitsAux n n

def intChars (n : Int) : List Char :=
  if n < 0 then '-' :: natChars n.natAbs else natChars n.natAbs

def natStr (n : Nat) : String := String.mk (natChars n)

def intStr (n : Int) : String := String.mk (intChars n)

/-- Model of Python `str.replace(pat, rep)`: scan left to right, replacing
each non-overlapping occurrence of `pat` and resuming the scan after the
replacement text.  `fuel` bounds the recursion; one character of the subject
is consumed per step, so `s.length` fuel always suffices. -/
def listReplaceAux : Nat → List Char → List Char → List Char → List Char
  | 0, s, _, _ => s
  | fuel + 1, s, pat, rep =>
    match s with
    | [] => []
    | c :: r =>
      if pat.isPrefixOf (c :: r) then
        rep ++ listReplaceAux fuel ((c :: r).drop pat.length) pat rep
      else
        c :: listReplaceAux fuel r pat rep

def pyReplaceL (s pat rep : List Char) : List Char := listReplaceAux s.length s pat rep

/-- Python `s.replace(pat, rep)` lifted to `String`. -/
def pyReplace (s pat rep : String) : String := String.mk (pyReplaceL s.data pat.data rep.data)

/-- Python `s.startswith(pre)`. -/
def pyStartsWith (s pre : String) : Bool := pre.data.isPrefixOf s.data

/-- Whether `pat` occurs as a contiguous substring of `s`. -/
def occursIn (pat : List Char) : List Char → Bool
  | [] => pat.isPrefixOf []
  | c :: r => pat.isPrefixOf (c :: r) || occursIn pat r

/-! ### JSON values and insertion-ordered dictionaries

Python scan results, module specifications and AI selections are plain
dictionaries and lists.  `Json` models the JSON fragment the repository
manipulates (floats are modelled by integer tick counts).  `JsonFields` is an
insertion-ordered association list mirroring a Python `dict`. -/

mutual
inductive Json where
  | null : Json
  | bool : Bool → Json
  | num : Int → Json
  | str : String → Json
  | arr : JsonList → Json
  | obj : JsonFields → Json
  deriving DecidableEq
inductive JsonList where
  | nil : JsonList
  | cons : Json → JsonList → JsonList
  deriving DecidableEq
inductive JsonFields where
  | fnil : JsonFields
  | fcons : String → Json → JsonFields → JsonFields
  deriving DecidableEq
end

/-- Python `d[k]` / `d.get(k)` on an insertion-ordered dictionary. -/
def getKey : JsonFields → String → Option Json
  | .fnil, _ => none
  | .fcons k v fs, key => if k = key then some v else getKey fs key

/-- Python `k in d`. -/
def hasKey (fs : JsonFields) (key : String) : Bool := (getKey fs key).isSome

/-- Python `{**d, key: v}` / `d[key] = v`: replace the value in place if the
key is present, otherwise append the binding. -/
def setKey : JsonFields → String → Json → JsonFields
  | .fnil, key, v => .fcons key v .fnil
  | .fcons k w fs, key, v =>
    if k = key then .fcons k v fs else .fcons k w (setKey fs key v)

def jlOfList : List Json → JsonList
  | [] => .nil
  | x :: xs => .cons x (jlOfList xs)

def jlToList : JsonList → List Json
  | .nil => []
  | .cons x xs => x :: jlToList xs

/-- List comprehension with a filter predicate, `[m for m in xs if p m]`. -/
def jfilter (p : Json → Bool) : JsonList → JsonList
  | .nil => .nil
  | .cons x xs => if p x then .cons x (jfilter p xs) else jfilter p xs

/-- Python truthiness of a JSON value (used by `if result.get('job_id'):`). -/
def jsonTruthy : Json → Bool
  | .null => false
  | .bool b => b
  | .num n => decide (n ≠ 0)
  | .str s => decide (s ≠ "")
  | .arr .nil => false
  | .arr (.cons _ _) => true
  | .obj .fnil => false
  | .obj (.fcons _ _ _) => true

/-- Python `str()` of a scalar JSON value.  The repository applies `str` only
to RPC job identifiers (integers in practice); `str()` of containers is
abstracted by a placeholder, which no theorem below depends on. -/
def pyStr : Json → String
  | .null => "None"
  | .bool true => "True"
  | .bool false => "False"
  | .num n => intStr n
  | .str s => s
  | .arr _ => "<container>"
  | .obj _ => "<container>"

/-! ### `config.py`: the `allowed_modules` validator

`ModuleConfig.validate_module_paths` iterates the list and raises `ValueError`
at the first entry that does not start with `"auxiliary/"`, otherwise it
returns the list unchanged.  `load_config` feeds the parsed JSON document into
the pydantic model, which runs this validator on the `allowed_modules`
field. -/

def first_invalid_module : List String → Option String
  | [] => none
  | m :: ms => if pyStartsWith m "auxiliary/" then first_invalid_module ms else some m

def validate_module_paths (v : List String) : Except String (List String) :=
  match first_invalid_module v with
  | some m => .error ("Module '" ++ m ++ "' must start with 'auxiliary/'")
  | none => .ok v

/-! ### `ai_module_selector.py`: the priority filter

`AIModuleSelector.filter_by_priority` maps the requested minimum priority to
its integer rank via `priority_order = {"high": 3, "medium": 2, "low": 1}`
(default 1 for unrecognized labels), then rebuilds the selection dictionary
keeping, inside each of the seven module-type lists, exactly the entries whose
own rank meets the minimum.  An entry's label is `m.get("priority", "low")`;
looking a non-label value up in `priority_order` yields the default rank 1. -/

def priority_rank (p : String) : Nat :=
  if p = "high" then 3 else if p = "medium" then 2 else if p = "low" then 1 else 1

/-- Rank of one selection entry: `priority_order.get(m.get("priority", "low"), 1)`.
Entries that are not dictionaries make Python raise; they are given rank 1
here and excluded by the well-formedness hypotheses of the theorems. -/
def entry_rankJ : Json → Nat
  | .obj fs =>
    match getKey fs "priority" with
    | none => priority_rank "low"
    | some (.str s) => priority_rank s
    | some _ => 1
  | _ => 1

def moduleTypes : List String :=
  ["auxiliary", "exploit", "payload", "encoder", "nop", "post", "evasion"]

/-- The loop `for module_type in [...]: if module_type in selection["modules"]`.
A present value that is not a list makes Python raise while iterating; such a
value is mapped to an empty filtered list here and excluded by the
well-formedness hypotheses of the theorems. -/
def filtModulesAux (minp : Nat) (ms : JsonFields) : List String → JsonFields
  | [] => .fnil
  | t :: ts =>
    match getKey ms t with
    | some (.arr entries) =>
      .fcons t (.arr (jfilter (fun m => decide (minp ≤ entry_rankJ m)) entries))
        (filtModulesAux minp ms ts)
    | some _ => .fcons t (.arr .nil) (filtModulesAux minp ms ts)
    | none => filtModulesAux minp ms ts

def mkFiltered (ta eo : Json) (ms : JsonFields) : JsonFields :=
  .fcons "target_analysis" ta (.fcons "execution_order" eo (.fcons "modules" (.obj ms) .fnil))

def filter_by_priority (sel : JsonFields) (priority : String) : JsonFields :=
  let minp := priority_rank priority
  let ta := (getKey sel "target_analysis").getD (Json.str "")
  let eo := (getKey sel "execution_order").getD (Json.arr .nil)
  match getKey sel "modules" with
  | none => mkFiltered ta eo .fnil
  | some (.obj ms) => mkFiltered ta eo (filtModulesAux minp ms moduleTypes)
  | some _ => mkFiltered ta eo .fnil

/-- The `"modules"` sub-dictionary of a selection, empty when absent. -/
def modules_of (sel : JsonFields) : JsonFields :=
  match getKey sel "modules" with
  | some (.obj ms) => ms
  | _ => .fnil

/-- One selection entry Python can process without raising: a dictionary whose
`"priority"` value, when present, is a string. -/
def wfEntry : Json → Bool
  | .obj fs =>
    match getKey fs "priority" with
    | none => true
    | some (.str _) => true
    | some _ => false
  | _ => false

def jall (p : Json → Bool) : JsonList → Bool
  | .nil => true
  | .cons x xs => p x && jall p xs

def wfTypeVal : Option Json → Bool
  | none => true
  | some (.arr es) => jall wfEntry es
  | some _ => false

/-- A selection dictionary `filter_by_priority` processes without raising:
its `"modules"` value, when present, is a dictionary whose seven module-type
values, when present, are lists of well-formed entries. -/
def wellFormedSelection (sel : JsonFields) : Bool :=
  match getKey sel "modules" with
  | none => true
  | some (.obj ms) => moduleTypes.all (fun t => wfTypeVal (getKey ms t))
  | some _ => false

/-! ### `cli.py`: exit codes at the command boundary

Both `scan` and `ai_scan` wrap their whole body in
`try: ... except KeyboardInterrupt: raise typer.Exit(code=130)
except Exception: raise typer.Exit(code=1)`.  `typer.Exit` derives from
`click.exceptions.Exit`, which derives from `RuntimeError`, hence from
`Exception`; so a `typer.Exit` raised inside the body is itself caught by the
generic handler and re-raised as `typer.Exit(code=1)`, while
`KeyboardInterrupt` is not an `Exception` subclass and reaches its dedicated
handler.  The typer/click runner turns an escaping `Exit` into that exit
code, and a body that returns normally into exit code 0; `main` forwards the
`SystemExit` code. -/

inductive PyExc where
  | keyboardInterrupt : PyExc
  | typerExit : Nat → PyExc
  | otherExc : String → PyExc
  deriving DecidableEq

/-- The `except` chain at the bottom of `scan` / `ai_scan`. -/
def command_boundary : Except PyExc Unit → Except PyExc Unit
  | .ok () => .ok ()
  | .error .keyboardInterrupt => .error (.typerExit 130)
  | .error _ => .error (.typerExit 1)

/-- The typer/click runner plus `main`: an escaping `typer.Exit` becomes the
process exit code, a normal return becomes 0, any other escaping exception a
nonzero interpreter exit (abstracted as 1). -/
def typer_main : Except PyExc Unit → Nat
  | .ok () => 0
  | .error (.typerExit c) => c
  | .error _ => 1

/-- Exit code of one `scan` / `ai_scan` invocation whose body has the given
outcome. -/
def cli_exit_code (body : Except PyExc Unit) : Nat :=
  typer_main (command_boundary body)

/-! ### `msf_runner.py` / `msf_client.py`: the RPC module runners

The external Metasploit RPC client is modelled by `RpcEnv`: module lookup and
execution keyed by module type and name, and the job listing sampled at each
one-second poll tick.  Option assignment and `RHOSTS` assignment mutate only
remote state and console output and are modelled as no-ops; wall-clock time is
modelled by the tick count of the polling loop. -/

structure RpcEnv where
  connected : Bool
  useModule : String → String → Except String Unit
  execResult : String → String → Except String Json
  jobsList : Nat → List String

/-- Module-name extraction in `UniversalMsfRunner`: global `str.replace` of
each of the seven type-prefix substrings, applied in the listed order. -/
def strip_type_prefixes (p : String) : String :=
  ["auxiliary/", "exploit/", "payload/", "encoder/", "nop/", "post/", "evasion/"].foldl
    (fun acc pre => pyReplace acc pre "") p

/-- Module-name extraction in `MsfAuxiliaryRunner`: a single global
`str.replace` of `"auxiliary/"`. -/
def client_module_name (p : String) : String := pyReplace p "auxiliary/" ""

/-- Whether the polling loop breaks at tick `t`: it breaks when the execute
result is not a dictionary carrying a truthy `job_id`, or when `str(job_id)`
is no longer among the listed jobs. -/
def pollBreak (env : RpcEnv) (result : Json) (t : Nat) : Bool :=
  match result with
  | .obj fs =>
    let j := (getKey fs "job_id").getD Json.null
    if jsonTruthy j then !((env.jobsList t).contains (pyStr j)) else true
  | _ => true

/-- The `while time.time() - start_time < timeout` polling loop.  Each
iteration sleeps one second (one tick) and then either breaks or continues;
the returned value is the elapsed tick count when the loop exits, whether by
break or by exhausting the timeout. -/
def pollLoop (brk : Nat → Bool) : Nat → Nat → Nat
  | 0, t => t
  | fuel + 1, t => if brk (t + 1) then t + 1 else pollLoop brk fuel (t + 1)

/-- `UniversalMsfRunner.run_module`.  Success returns the dictionary literal
built at the end of the method; lookup failure raises `ValueError`, execution
failure raises `RuntimeError`, both modelled as `Except.error` carrying the
formatted message. -/
def run_module_universal (env : RpcEnv) (module_type module_path target : String)
    (options : JsonFields) (timeout : Nat) : Except String Json :=
  if env.connected = false then
    .error "Not connected to Metasploit. Call connect() first."
  else
    let module_name := strip_type_prefixes module_path
    match env.useModule module_type module_name with
    | .error e => .error ("Module '" ++ module_path ++ "' not found or invalid: " ++ e)
    | .ok () =>
      let _options := options
      match env.execResult module_type module_name with
      | .error e => .error ("Failed to execute module: " ++ e)
      | .ok result =>
        let elapsed := pollLoop (pollBreak env result) timeout 0
        .ok (.obj (.fcons "module" (.str module_path)
          (.fcons "module_type" (.str module_type)
          (.fcons "target" (.str target)
          (.fcons "status" (.str "completed")
          (.fcons "execution_time" (.num elapsed)
          (.fcons "result" result .fnil)))))))

/-- `MsfAuxiliaryRunner.run_module`.  Identical control flow over the RPC
client, with `"auxiliary"` as the fixed module type; its success dictionary
carries `module`, `target`, `status` and `result` only. -/
def run_module_client (env : RpcEnv) (module_path target : String)
    (options : JsonFields) (timeout : Nat) : Except String Json :=
  if env.connected = false then
    .error "Not connected to Metasploit. Call connect() first."
  else
    let module_name := client_module_name module_path
    match env.useModule "auxiliary" module_name with
    | .error e => .error ("Module '" ++ module_path ++ "' not found: " ++ e)
    | .ok () =>
      let _options := options
      match env.execResult "auxiliary" module_name with
      | .error e => .error ("Failed to execute module: " ++ e)
      | .ok result =>
        let _elapsed := pollLoop (pollBreak env result) timeout 0
        .ok (.obj (.fcons "module" (.str module_path)
          (.fcons "target" (.str target)
          (.fcons "status" (.str "completed")
          (.fcons "result" result .fnil)))))

/-- A module specification `run_module_sequence` can run without a Python
type error: `module` maps to a string, `module_type` and `options` are absent
or a string and a dictionary respectively. -/
def wellFormedSpec (spec : JsonFields) : Bool :=
  (match getKey spec "module_type" with
   | none => true
   | some (.str _) => true
   | some _ => false) &&
  (match getKey spec "module" with
   | some (.str _) => true
   | _ => false) &&
  (match getKey spec "options" with
   | none => true
   | some (.obj _) => true
   | some _ => false)

def spec_type_str (spec : JsonFields) : String :=
  match getKey spec "module_type" with
  | some (.str s) => s
  | some _ => "auxiliary"
  | none => "auxiliary"

def spec_path_str (spec : JsonFields) : String :=
  match getKey spec "module" with
  | some (.str p) => p
  | _ => ""

def spec_options (spec : JsonFields) : JsonFields :=
  match getKey spec "options" with
  | some (.obj fs) => fs
  | _ => .fnil

/-- The `error_result` dictionary built in the `except` arm of the sequence
loop: the original `module` and `module_type` values, the target, a `failed`
status and the stringified exception. -/
def fail_record (modulePath moduleType : Json) (target e : String) : Json :=
  .obj (.fcons "module" modulePath
    (.fcons "module_type" moduleType
    (.fcons "target" (.str target)
    (.fcons "status" (.str "failed")
    (.fcons "error" (.str e) .fnil)))))

/-- One iteration of the sequence loop: run the module and append either its
result or a failure record.  A specification whose `module` or `module_type`
value is not a string makes `run_module` raise a Python type error inside the
`try`, which the loop converts to a failure record like any other exception;
the message of that type error is abstracted. -/
def run_one (env : RpcEnv) (target : String) (timeout : Nat) (spec : JsonFields) : Json :=
  let mtJ := (getKey spec "module_type").getD (.str "auxiliary")
  let mpJ := (getKey spec "module").getD Json.null
  match mtJ, mpJ with
  | .str mt, .str p =>
    match run_module_universal env mt p target (spec_options spec) timeout with
    | .ok r => r
    | .error e => fail_record mpJ mtJ target e
  | _, _ => fail_record mpJ mtJ target "TypeError"

/-- `UniversalMsfRunner.run_module_sequence`: an ordered iteration appending
one record per specification, the `except` arm catching any per-module
exception so the loop always continues to the next specification. -/
def run_module_sequence (env : RpcEnv) (specs : List JsonFields) (target : String)
    (timeout : Nat) : List Json :=
  specs.map (run_one env target timeout)

/-! ### `ai_analyzer.py`: result analysis with fallback

The provider call (OpenAI or Anthropic chat completion) and `json.loads` on
its textual reply are the two external boundaries, passed as parameters.  The
prompt is assembled exactly as `_build_analysis_prompt` does, with `str()` of
non-scalar payload values abstracted by `pyStr`. -/

def analysis_prompt_header : String :=
  "You are a security analyst reviewing Metasploit auxiliary module scan results. \nAnalyze the following scan results and provide:\n\n1. A summary of findings\n2. List of potential vulnerabilities identified\n3. Risk level assessment (Critical, High, Medium, Low, Info)\n4. Specific remediation recommendations\n5. Priority actions\n\nScan Results:\n"

def prompt_get (r : Json) (key : String) : String :=
  match r with
  | .obj fs => pyStr ((getKey fs key).getD (.str "unknown"))
  | _ => "unknown"

def prompt_opt (r : Json) (key : String) : String :=
  match r with
  | .obj fs =>
    let v := (getKey fs key).getD Json.null
    if jsonTruthy v then pyStr v else ""
  | _ => ""

def result_section (i : Nat) (r : Json) : String :=
  "\n--- Result " ++ natStr i ++ " ---\n" ++
  "Module: " ++ prompt_get r "module" ++ "\n" ++
  "Target: " ++ prompt_get r "target" ++ "\n" ++
  "Status: " ++ prompt_get r "status" ++ "\n" ++
  (match r with
   | .obj fs =>
     (if jsonTruthy ((getKey fs "error").getD Json.null)
      then "Error: " ++ prompt_opt r "error" ++ "\n" else "") ++
     (if jsonTruthy ((getKey fs "result").getD Json.null)
      then "Details: " ++ prompt_opt r "result" ++ "\n" else "")
   | _ => "")

def result_sections : Nat → List Json → String
  | _, [] => ""
  | i, r :: rs => result_section i r ++ result_sections (i + 1) rs

def analysis_prompt_footer : String :=
  "\n\nPlease provide your analysis in JSON format. Only respond with valid JSON, no additional text.\n"

def build_analysis_prompt (results : List Json) : String :=
  analysis_prompt_header ++ result_sections 1 results ++ analysis_prompt_footer

/-- `AIAnalyzer._parse_analysis`: parse the reply as JSON, otherwise return
the fixed fallback dictionary carrying the raw reply text. -/
def parse_analysis (parseReply : String → Option Json) (analysis : String) : Json :=
  match parseReply analysis with
  | some p => p
  | none =>
    .obj (.fcons "analysis" (.str analysis)
      (.fcons "vulnerabilities" (.arr .nil)
      (.fcons "recommendations" (.arr .nil)
      (.fcons "risk_level" (.str "unknown") .fnil))))

/-- `AIAnalyzer.analyze_results`: empty input short-circuits to a fixed
payload; a provider exception is caught and converted to the failure payload;
otherwise the reply goes through `_parse_analysis`.  The function is total:
no branch propagates an exception. -/
def analyze_results (providerCall : String → Except String String)
    (parseReply : String → Option Json) (results : List Json) : Json :=
  if results.isEmpty then
    .obj (.fcons "analysis" (.str "No scan results to analyze.")
      (.fcons "vulnerabilities" (.arr .nil)
      (.fcons "recommendations" (.arr .nil)
      (.fcons "risk_level" (.str "unknown") .fnil))))
  else
    match providerCall (build_analysis_prompt results) with
    | .error e =>
      .obj (.fcons "analysis" (.str ("Analysis failed: " ++ e))
        (.fcons "vulnerabilities" (.arr .nil)
        (.fcons "recommendations" (.arr .nil)
        (.fcons "risk_level" (.str "unknown")
        (.fcons "error" (.str e) .fnil)))))
    | .ok analysis => parse_analysis parseReply analysis

/-- Fields of a result record returned as a dictionary, empty otherwise. -/
def asFields : Json → JsonFields
  | .obj fs => fs
  | _ => .fnil

/-! ### `reporter.py`: JSON serialization and its inverse

`ScanReporter.save_json` writes `json.dump(self.results, f, indent=2)`.  The
printer below reproduces that output format: two-space indentation, items one
per line, `": "` after keys, `[]` / the empty braces for empty containers,
string escaping as the `json` module performs it (with non-ASCII characters
emitted literally rather than `\uXXXX`-encoded, which parses identically).
The reader below models `json.load`: a whitespace-tolerant recursive-descent
reader of the same fragment, requiring only trailing whitespace. -/

def braceO : Char := '\x7b'

def braceC : Char := '\x7d'

def spaces : Nat → List Char
  | 0 => []
  | n + 1 => ' ' :: spaces n

def skipWs : List Char → List Char
  | [] => []
  | c :: r => if isWsChar c then skipWs r else c :: r

def hexDigitChar (n : Nat) : Char :=
  Char.ofNat (if n < 10 then 48 + n else 87 + n)

def hexVal (c : Char) : Nat :=
  if c.toNat ≤ 57 then c.toNat - 48
  else if c.toNat ≤ 70 then c.toNat - 55
  else c.toNat - 87

def escChar (c : Char) : List Char :=
  if c = '"' then ['\\', '"']
  else if c = '\\' then ['\\', '\\']
  else if c = '\n' then ['\\', 'n']
  else if c = '\t' then ['\\', 't']
  else if c = '\r' then ['\\', 'r']
  else if c = Char.ofNat 8 then ['\\', 'b']
  else if c = Char.ofNat 12 then ['\\', 'f']
  else if c.toNat < 32 then
    ['\\', 'u', '0', '0', hexDigitChar (c.toNat / 16), hexDigitChar (c.toNat % 16)]
  else [c]

def escChars : List Char → List Char
  | [] => []
  | c :: r => escChar c ++ escChars r

def strChars (s : String) : List Char := '"' :: (escChars s.data ++ ['"'])

def lNull : List Char := ['n', 'u', 'l', 'l']

def lTrue : List Char := ['t', 'r', 'u', 'e']

def lFalse : List Char := ['f', 'a', 'l', 's', 'e']

mutual
def printVal : Nat → Json → List Char
  | _, .null => lNull
  | _, .bool true => lTrue
  | _, .bool false => lFalse
  | _, .num n => intChars n
  | _, .str s => strChars s
  | _, .arr .nil => ['[', ']']
  | ind, .arr (.cons x xs) =>
    '[' :: '\n' :: (spaces (ind + 2) ++ printVal (ind + 2) x ++ printArrRest (ind + 2) xs ++
      ('\n' :: spaces ind) ++ [']'])
  | _, .obj .fnil => [braceO, braceC]
  | ind, .obj (.fcons k v fs) =>
    braceO :: '\n' :: (spaces (ind + 2) ++ strChars k ++ (':' :: ' ' :: printVal (ind + 2) v) ++
      printObjRest (ind + 2) fs ++ ('\n' :: spaces ind) ++ [braceC])
def printArrRest : Nat → JsonList → List Char
  | _, .nil => []
  | ind, .cons x xs => ',' :: '\n' :: (spaces ind ++ printVal ind x ++ printArrRest ind xs)
def printObjRest : Nat → JsonFields → List Char
  | _, .fnil => []
  | ind, .fcons k v fs =>
    ',' :: '\n' :: (spaces ind ++ strChars k ++ (':' :: ' ' :: printVal ind v) ++ printObjRest ind fs)
end

mutual
def sizeJ : Json → Nat
  | .null => 1
  | .bool _ => 1
  | .num _ => 1
  | .str _ => 1
  | .arr xs => 1 + sizeL xs
  | .obj fs => 1 + sizeF fs
def sizeL : JsonList → Nat
  | .nil => 1
  | .cons x xs => 1 + sizeJ x + sizeL xs
def sizeF : JsonFields → Nat
  | .fnil => 1
  | .fcons _ v fs => 1 + sizeJ v + sizeF fs
end

/-- Reader of a string body after the opening quote: plain characters,
short escapes, and `\uXXXX`. -/
def pStrBody : List Char → Option (List Char × List Char)
  | [] => none
  | c :: r =>
    if c = '"' then some ([], r)
    else if c = '\\' then
      match r with
      | [] => none
      | e :: r2 =>
        if e = '"' then (pStrBody r2).map (fun p => ('"' :: p.1, p.2))
        else if e = '\\' then (pStrBody r2).map (fun p => ('\\' :: p.1, p.2))
        else if e = 'n' then (pStrBody r2).map (fun p => ('\n' :: p.1, p.2))
        else if e = 't' then (pStrBody r2).map (fun p => ('\t' :: p.1, p.2))
        else if e = 'r' then (pStrBody r2).map (fun p => ('\r' :: p.1, p.2))
        else if e = 'b' then (pStrBody r2).map (fun p => (Char.ofNat 8 :: p.1, p.2))
        else if e = 'f' then (pStrBody r2).map (fun p => (Char.ofNat 12 :: p.1, p.2))
        else if e = '/' then (pStrBody r2).map (fun p => ('/' :: p.1, p.2))
        else if e = 'u' then
          match r2 with
          | h1 :: h2 :: h3 :: h4 :: r3 =>
            (pStrBody r3).map (fun p =>
              (Char.ofNat (hexVal h1 * 4096 + hexVal h2 * 256 + hexVal h3 * 16 + hexVal h4) :: p.1,
                p.2))
          | _ => none
        else none
    else (pStrBody r).map (fun p => (c :: p.1, p.2))

def spanDigits : List Char → List Char × List Char
  | [] => ([], [])
  | c :: r =>
    if isDigitB c then
      let p := spanDigits r
      (c :: p.1, p.2)
    else ([], c :: r)

def digitsVal (ds : List Char) : Nat := ds.foldl (fun acc c => acc * 10 + digitVal c) 0

mutual
def pVal : Nat → List Char → Option (Json × List Char)
  | 0, _ => none
  | fuel + 1, s0 =>
    let s := skipWs s0
    if lNull.isPrefixOf s then some (.null, s.drop 4)
    else if lTrue.isPrefixOf s then some (.bool true, s.drop 4)
    else if lFalse.isPrefixOf s then some (.bool false, s.drop 5)
    else
      match s with
      | [] => none
      | c :: r =>
        if c = '"' then
          match pStrBody r with
          | some (cs, r2) => some (.str (String.mk cs), r2)
          | none => none
        else if c = '[' then
          match skipWs r with
          | [] => none
          | d :: r1 =>
            if d = ']' then some (.arr .nil, r1)
            else
              match pVal fuel (d :: r1) with
              | some (v, r2) =>
                match pArrRest fuel r2 with
                | some (vs, r3) => some (.arr (.cons v vs), r3)
                | none => none
              | none => none
        else if c = braceO then
          match skipWs r with
          | [] => none
          | d :: r1 =>
            if d = braceC then some (.obj .fnil, r1)
            else if d = '"' then
              match pStrBody r1 with
              | some (k, r2) =>
                (match skipWs r2 with
                 | [] => none
                 | d2 :: r3 =>
                   if d2 = ':' then
                     match pVal fuel r3 with
                     | some (v, r4) =>
                       match pObjRest fuel r4 with
                       | some (fs, r5) => some (.obj (.fcons (String.mk k) v fs), r5)
                       | none => none
                     | none => none
                   else none)
              | none => none
            else none
        else if c = '-' then
          match spanDigits r with
          | ([], _) => none
          | (ds, r2) => some (.num (-(digitsVal ds : Int)), r2)
        else if isDigitB c then
          match spanDigits (c :: r) with
          | (ds, r2) => some (.num (digitsVal ds), r2)
        else none
def pArrRest : Nat → List Char → Option (JsonList × List Char)
  | 0, _ => none
  | fuel + 1, s0 =>
    match skipWs s0 with
    | [] => none
    | d :: r =>
      if d = ']' then some (.nil, r)
      else if d = ',' then
        match pVal fuel r with
        | some (v, r2) =>
          match pArrRest fuel r2 with
          | some (vs, r3) => some (.cons v vs, r3)
          | none => none
        | none => none
      else none
def pObjRest : Nat → List Char → Option (JsonFields × List Char)
  | 0, _ => none
  | fuel + 1, s0 =>
    match skipWs s0 with
    | [] => none
    | d :: r =>
      if d = braceC then some (.fnil, r)
      else if d = ',' then
        match skipWs r with
        | [] => none
        | d2 :: r2 =>
          if d2 = '"' then
            match pStrBody r2 with
            | some (k, r3) =>
              (match skipWs r3 with
               | [] => none
               | d3 :: r4 =>
                 if d3 = ':' then
                   match pVal fuel r4 with
                   | some (v, r5) =>
                     match pObjRest fuel r5 with
                     | some (fs, r6) => some (.fcons (String.mk k) v fs, r6)
                     | none => none
                   | none => none
                 else none)
            | none => none
          else none
      else none
end

/-- `json.load`: read one JSON value and accept only trailing whitespace. -/
def jsonLoad (s : List Char) : Option Json :=
  match pVal (s.length + 1) s with
  | some (v, rest) => if skipWs rest = [] then some v else none
  | none => none

/-- `ScanReporter.add_result`: append `{**result, "timestamp": ts}` to the
ordered result list. -/
def add_result (results : List Json) (result : JsonFields) (timestamp : String) : List Json :=
  results ++ [.obj (setKey result "timestamp" (.str timestamp))]

/-- The result list accumulated by a sequence of `add_result` calls, each
supplying the record and the timestamp taken at collection time. -/
def reporter_results (entries : List (JsonFields × String)) : List Json :=
  entries.foldl (fun acc e => add_result acc e.1 e.2) []

/-- The file content written by `ScanReporter.save_json`:
`json.dump(self.results, f, indent=2)`. -/
def save_json_content (results : List Json) : List Char :=
  printVal 0 (.arr (jlOfList results))

/-- Whether a character sequence does not begin with a decimal digit; the
reader of a printed number consumes exactly the printed digits whenever the
following text satisfies this. -/
def notDigitStart : List Char → Bool
  | [] => true
  | c :: _ => !isDigitB c

/-! ### Concrete instances used by the witnesses and counterexamples -/

/-- The `"status"`-style field of an `Except`-wrapped run record: `some v`
exactly when the run succeeded with a dictionary carrying the field. -/
def ok_field (r : Except String Json) (key : String) : Option Json :=
  match r with
  | .ok (.obj fs) => getKey fs key
  | _ => none

/-- An RPC environment in which lookup and execution succeed and the execute
call returns no job handle. -/
def cexEnv : RpcEnv where
  connected := true
  useModule := fun _ _ => .ok ()
  execResult := fun _ _ => .ok Json.null
  jobsList := fun _ => []

/-- The success record `MsfAuxiliaryRunner.run_module` builds in `cexEnv`. -/
def cexClientRecord : Json :=
  .obj (.fcons "module" (.str "auxiliary/scanner/http/http_version")
    (.fcons "target" (.str "10.0.0.5")
    (.fcons "status" (.str "completed")
    (.fcons "result" Json.null .fnil))))

/-- An RPC environment whose execute call hands back job id 7 and whose job
listing reports that job as active at every poll tick, so the polling loop
only exits by exhausting the timeout. -/
def busyEnv : RpcEnv where
  connected := true
  useModule := fun _ _ => .ok ()
  execResult := fun _ _ => .ok (.obj (.fcons "job_id" (.num 7) .fnil))
  jobsList := fun _ => ["7"]

/-- An RPC environment in which exactly the module named `"bad/mod"` fails to
load. -/
def seqEnvW : RpcEnv where
  connected := true
  useModule := fun _ n => if n = "bad/mod" then .error "nope" else .ok ()
  execResult := fun _ _ => .ok Json.null
  jobsList := fun _ => []

def specGoodW : JsonFields :=
  .fcons "module_type" (.str "auxiliary")
    (.fcons "module" (.str "auxiliary/scanner/http/http_version") .fnil)

def specBadW : JsonFields :=
  .fcons "module" (.str "auxiliary/bad/mod") .fnil

def selEntryHigh : Json :=
  .obj (.fcons "module" (.str "auxiliary/scanner/http/http_version")
    (.fcons "priority" (.str "high") .fnil))

def selEntryLow : Json :=
  .obj (.fcons "module" (.str "auxiliary/scanner/ssh/ssh_version")
    (.fcons "priority" (.str "low") .fnil))

def selEntryMed : Json :=
  .obj (.fcons "module" (.str "auxiliary/scanner/smb/smb_version")
    (.fcons "priority" (.str "medium") .fnil))

def selEntriesW : JsonList := .cons selEntryHigh (.cons selEntryLow (.cons selEntryMed .nil))

def selModulesW : JsonFields := .fcons "auxiliary" (.arr selEntriesW) .fnil

def selW : JsonFields :=
  .fcons "target_analysis" (.str "fingerprint first")
    (.fcons "modules" (.obj selModulesW) .fnil)

/-! ### Theorems -/

theorem first_invalid_module_eq_none (v : List String) :
    first_invalid_module v = none ↔ ∀ m ∈ v, pyStartsWith m "auxiliary/" = true := by
  induction v with
  | nil => simp [first_invalid_module]
  | cons m ms ih =>
    by_cases h : pyStartsWith m "auxiliary/" = true
    · simp [first_invalid_module, h, ih]
    · simp [first_invalid_module, h]

/-- C2: the `allowed_modules` validator raises exactly when some entry lacks
the `auxiliary/` prefix, and otherwise returns the list unchanged. -/
theorem validate_module_paths_iff (v : List String) :
    ((∃ e, validate_module_paths v = .error e) ↔
      ∃ m ∈ v, pyStartsWith m "auxiliary/" = false) ∧
    ((∀ m ∈ v, pyStartsWith m "auxiliary/" = true) → validate_module_paths v = .ok v) := by
  constructor
  · constructor
    · intro ⟨e, he⟩
      unfold validate_module_paths at he
      cases hf : first_invalid_module v with
      | none => rw [hf] at he; exact absurd he (by simp)
      | some m =>
        by_contra hall
        push_neg at hall
        have : ∀ m ∈ v, pyStartsWith m "auxiliary/" = true := by
          intro m hm
          have := hall m hm
          revert this
          cases pyStartsWith m "auxiliary/" <;> simp
        rw [(first_invalid_module_eq_none v).2 this] at hf
        exact absurd hf (by simp)
    · intro ⟨m, hm, hfalse⟩
      unfold validate_module_paths
      cases hf : first_invalid_module v with
      | none =>
        have := (first_invalid_module_eq_none v).1 hf m hm
        rw [this] at hfalse
        exact absurd hfalse (by simp)
      | some bad => exact ⟨_, rfl⟩
  · intro hall
    unfold validate_module_paths
    rw [(first_invalid_module_eq_none v).2 hall]

theorem validate_module_paths_iff_witness :
    validate_module_paths ["auxiliary/scanner/http/http_version"] =
      .ok ["auxiliary/scanner/http/http_version"] :=
  (validate_module_paths_iff ["auxiliary/scanner/http/http_version"]).2 (by decide)

/-- C5: a `scan` / `ai_scan` body that completes normally exits with code 0,
a body interrupted by the user exits with code 130, and any exception caught
by the generic handler at the command boundary — including a `typer.Exit`
raised inside the body, whatever code it requested — exits with code 1. -/
theorem cli_exit_codes :
    cli_exit_code (.ok ()) = 0 ∧
    cli_exit_code (.error .keyboardInterrupt) = 130 ∧
    (∀ msg, cli_exit_code (.error (.otherExc msg)) = 1) ∧
    (∀ c, cli_exit_code (.error (.typerExit c)) = 1) :=
  ⟨rfl, rfl, fun _ => rfl, fun _ => rfl⟩

theorem listReplaceAux_no_occurrence (pat rep : List Char) :
    ∀ (fuel : Nat) (s : List Char), occursIn pat s = false → listReplaceAux fuel s pat rep = s := by
  intro fuel
  induction fuel with
  | zero => intro s _; rfl
  | succ fuel ih =>
    intro s hocc
    cases s with
    | nil => rfl
    | cons c r =>
      have hocc' := hocc
      unfold occursIn at hocc'
      rw [Bool.or_eq_false_iff] at hocc'
      unfold listReplaceAux
      simp only [hocc'.1, Bool.false_eq_true, if_false]
      rw [ih r hocc'.2]

/-- C10 counterexample: at the path `auxiliary/scanner/post/enum`, the
single-type runner's module name keeps the inner `post/` occurrence — the two
variants do not compute the claimed fully-stripped name every time. -/
theorem module_name_strip_cex :
    client_module_name "auxiliary/scanner/post/enum" = "scanner/post/enum" ∧
    occursIn "post/".data "scanner/post/enum".data = true ∧
    strip_type_prefixes "auxiliary/scanner/post/enum" = "scanner/enum" ∧
    "scanner/post/enum" ≠ "scanner/enum" := by
  refine ⟨rfl, rfl, rfl, by decide⟩

/-- C10 amended: the universal runner removes every type-prefix substring by
a sequence of global replacements, each occurrence included inner ones, while
the single-type runner performs only the one global replacement of
`auxiliary/` — it removes every occurrence of that prefix but of no other,
and leaves any path without an `auxiliary/` occurrence unchanged. -/
theorem module_name_strip_amended :
    (∀ p : String, occursIn "auxiliary/".data p.data = false → client_module_name p = p) ∧
    client_module_name "auxiliary/a/auxiliary/b" = "a/b" ∧
    strip_type_prefixes "auxiliary/scanner/post/enum" = "scanner/enum" ∧
    client_module_name "auxiliary/scanner/post/enum" = "scanner/post/enum" := by
  refine ⟨fun p h => ?_, rfl, rfl, rfl⟩
  show String.mk (pyReplaceL p.data "auxiliary/".data "".data) = p
  rw [pyReplaceL, listReplaceAux_no_occurrence _ _ _ _ h]

theorem module_name_strip_amended_witness :
    client_module_name "scanner/http/http_version" = "scanner/http/http_version" :=
  module_name_strip_amended.1 "scanner/http/http_version" (by decide)

/-- C6 counterexample: a fully successful run of
`MsfAuxiliaryRunner.run_module` returns a record with a `status` field but no
elapsed-time field at all, refuting the claim for that variant. -/
theorem run_module_client_no_elapsed_cex :
    run_module_client cexEnv "auxiliary/scanner/http/http_version" "10.0.0.5" .fnil 5 =
      .ok cexClientRecord ∧
    getKey (asFields cexClientRecord) "status" = some (.str "completed") ∧
    hasKey (asFields cexClientRecord) "execution_time" = false :=
  ⟨rfl, rfl, rfl⟩

/-- C6 amended: both runner variants raise on lookup failure and on execution
failure, and a successful run returns a record with status `completed`; the
universal variant's record additionally carries the elapsed-time field
`execution_time`, while the single-type variant's record has no such field. -/
theorem run_module_variants_fields (env : RpcEnv) (mt p target : String)
    (opts : JsonFields) (timeout : Nat) (hc : env.connected = true) :
    (∀ e, env.useModule mt (strip_type_prefixes p) = .error e →
      run_module_universal env mt p target opts timeout =
        .error ("Module '" ++ p ++ "' not found or invalid: " ++ e)) ∧
    (∀ e, env.useModule mt (strip_type_prefixes p) = .ok () →
      env.execResult mt (strip_type_prefixes p) = .error e →
      run_module_universal env mt p target opts timeout =
        .error ("Failed to execute module: " ++ e)) ∧
    (∀ r, env.useModule mt (strip_type_prefixes p) = .ok () →
      env.execResult mt (strip_type_prefixes p) = .ok r →
      ok_field (run_module_universal env mt p target opts timeout) "status" =
          some (.str "completed") ∧
      (ok_field (run_module_universal env mt p target opts timeout) "execution_time").isSome =
          true) ∧
    (∀ e, env.useModule "auxiliary" (client_module_name p) = .error e →
      run_module_client env p target opts timeout =
        .error ("Module '" ++ p ++ "' not found: " ++ e)) ∧
    (∀ e, env.useModule "auxiliary" (client_module_name p) = .ok () →
      env.execResult "auxiliary" (client_module_name p) = .error e →
      run_module_client env p target opts timeout =
        .error ("Failed to execute module: " ++ e)) ∧
    (∀ r, env.useModule "auxiliary" (client_module_name p) = .ok () →
      env.execResult "auxiliary" (client_module_name p) = .ok r →
      ok_field (run_module_client env p target opts timeout) "status" =
          some (.str "completed") ∧
      ok_field (run_module_client env p target opts timeout) "execution_time" = none) := by
  refine ⟨?_, ?_, ?_, ?_, ?_, ?_⟩
  · intro e hu
    simp [run_module_universal, hc, hu]
  · intro e hu he
    simp [run_module_universal, hc, hu, he]
  · intro r hu he
    simp [run_module_universal, hc, hu, he, ok_field, getKey]
  · intro e hu
    simp [run_module_client, hc, hu]
  · intro e hu he
    simp [run_module_client, hc, hu, he]
  · intro r hu he
    simp [run_module_client, hc, hu, he, ok_field, getKey]

theorem run_module_variants_fields_witness :
    ok_field
        (run_module_universal cexEnv "auxiliary" "auxiliary/scanner/http/http_version"
          "10.0.0.5" .fnil 5) "status" = some (.str "completed") :=
  ((run_module_variants_fields cexEnv "auxiliary" "auxiliary/scanner/http/http_version"
    "10.0.0.5" .fnil 5 rfl).2.2.1 Json.null rfl rfl).1

/-- C8: in both runner variants, whenever the module lookup and the execute
call themselves succeed, `run_module` returns a record with status
`completed`, whatever the job listing reports at any poll tick — in
particular also when the polling loop exhausts the whole timeout with the
job still listed as active. -/
theorem execute_success_reports_completed (env : RpcEnv) (hc : env.connected = true) :
    (∀ mt p target opts timeout r,
      env.useModule mt (strip_type_prefixes p) = .ok () →
      env.execResult mt (strip_type_prefixes p) = .ok r →
      ok_field (run_module_universal env mt p target opts timeout) "status" =
        some (.str "completed")) ∧
    (∀ p target opts timeout r,
      env.useModule "auxiliary" (client_module_name p) = .ok () →
      env.execResult "auxiliary" (client_module_name p) = .ok r →
      ok_field (run_module_client env p target opts timeout) "status" =
        some (.str "completed")) := by
  constructor
  · intro mt p target opts timeout r hu he
    simp [run_module_universal, hc, hu, he, ok_field, getKey]
  · intro p target opts timeout r hu he
    simp [run_module_client, hc, hu, he, ok_field, getKey]

theorem execute_success_reports_completed_witness :
    ok_field
        (run_module_universal busyEnv "auxiliary" "auxiliary/scanner/http/http_version"
          "10.0.0.5" .fnil 3) "status" = some (.str "completed") :=
  (execute_success_reports_completed busyEnv rfl).1 "auxiliary"
    "auxiliary/scanner/http/http_version" "10.0.0.5" .fnil 3
    (.obj (.fcons "job_id" (.num 7) .fnil)) rfl rfl

/-- C4: for a non-empty result list, `analyze_results` is total and converts
a failing provider call, or a provider reply that is not valid JSON, into the
fixed fallback payload — empty vulnerability list, empty recommendation list
and risk level `unknown` — instead of propagating an exception. -/
theorem analyze_results_fallback (providerCall : String → Except String String)
    (parseReply : String → Option Json) (results : List Json)
    (h : results.isEmpty = false) :
    (∀ e, providerCall (build_analysis_prompt results) = .error e →
      getKey (asFields (analyze_results providerCall parseReply results))
          "vulnerabilities" = some (.arr .nil) ∧
      getKey (asFields (analyze_results providerCall parseReply results))
          "recommendations" = some (.arr .nil) ∧
      getKey (asFields (analyze_results providerCall parseReply results))
          "risk_level" = some (.str "unknown")) ∧
    (∀ s, providerCall (build_analysis_prompt results) = .ok s → parseReply s = none →
      analyze_results providerCall parseReply results =
        .obj (.fcons "analysis" (.str s)
          (.fcons "vulnerabilities" (.arr .nil)
          (.fcons "recommendations" (.arr .nil)
          (.fcons "risk_level" (.str "unknown") .fnil))))) := by
  constructor
  · intro e he
    refine ⟨?_, ?_, ?_⟩ <;> simp [analyze_results, h, he, asFields, getKey]
  · intro s hs hp
    simp [analyze_results, h, hs, parse_analysis, hp]

theorem analyze_results_fallback_witness :
    getKey
        (asFields (analyze_results (fun _ => .error "connection refused") (fun _ => none)
          [Json.null])) "risk_level" = some (.str "unknown") :=
  ((analyze_results_fallback (fun _ => .error "connection refused") (fun _ => none)
    [Json.null] rfl).1 "connection refused" rfl).2.2

theorem jsonList_ind {motive : JsonList → Prop} (hnil : motive .nil)
    (hcons : ∀ x xs, motive xs → motive (.cons x xs)) : ∀ xs, motive xs
  | .nil => hnil
  | .cons x xs => hcons x xs (jsonList_ind hnil hcons xs)

theorem jsonFields_ind {motive : JsonFields → Prop} (hnil : motive .fnil)
    (hcons : ∀ k v fs, motive fs → motive (.fcons k v fs)) : ∀ fs, motive fs
  | .fnil => hnil
  | .fcons k v fs => hcons k v fs (jsonFields_ind hnil hcons fs)

theorem jlToList_jfilter (p : Json → Bool) (xs : JsonList) :
    jlToList (jfilter p xs) = (jlToList xs).filter p := by
  induction xs using jsonList_ind with
  | hnil => rfl
  | hcons x xs ih =>
    by_cases h : p x = true
    · simp [jfilter, jlToList, h, ih, List.filter_cons]
    · simp [jfilter, jlToList, h, ih, List.filter_cons]

theorem jfilter_idem (p : Json → Bool) (xs : JsonList) :
    jfilter p (jfilter p xs) = jfilter p xs := by
  induction xs using jsonList_ind with
  | hnil => rfl
  | hcons x xs ih =>
    by_cases h : p x = true
    · simp [jfilter, h, ih]
    · simp [jfilter, h, ih]

theorem getKey_mkFiltered_modules (ta eo : Json) (ms : JsonFields) :
    getKey (mkFiltered ta eo ms) "modules" = some (.obj ms) := rfl

theorem getKey_mkFiltered_ta (ta eo : Json) (ms : JsonFields) :
    getKey (mkFiltered ta eo ms) "target_analysis" = some ta := rfl

theorem getKey_mkFiltered_eo (ta eo : Json) (ms : JsonFields) :
    getKey (mkFiltered ta eo ms) "execution_order" = some eo := rfl

theorem modules_of_mkFiltered (ta eo : Json) (ms : JsonFields) :
    modules_of (mkFiltered ta eo ms) = ms := rfl

theorem getKey_filtModulesAux_of_mem (minp : Nat) (ms : JsonFields) (t : String)
    (es : JsonList) (hes : getKey ms t = some (.arr es)) :
    ∀ ts : List String, ts.Nodup → t ∈ ts →
      getKey (filtModulesAux minp ms ts) t =
        some (.arr (jfilter (fun m => decide (minp ≤ entry_rankJ m)) es)) := by
  intro ts
  induction ts with
  | nil => intro _ ht; cases ht
  | cons t0 ts ih =>
    intro hnd ht
    rcases List.mem_cons.1 ht with heq | hmem
    · subst heq
      simp [filtModulesAux, hes, getKey]
    · have hne : ¬ t0 = t := by
        rintro rfl
        exact (List.nodup_cons.1 hnd).1 hmem
      have htail := ih (List.nodup_cons.1 hnd).2 hmem
      cases hk : getKey ms t0 with
      | none => simpa [filtModulesAux, hk] using htail
      | some v =>
        cases v with
        | arr es0 => simpa [filtModulesAux, hk, getKey, hne] using htail
        | null => simpa [filtModulesAux, hk, getKey, hne] using htail
        | bool b => simpa [filtModulesAux, hk, getKey, hne] using htail
        | num n => simpa [filtModulesAux, hk, getKey, hne] using htail
        | str s => simpa [filtModulesAux, hk, getKey, hne] using htail
        | obj fs => simpa [filtModulesAux, hk, getKey, hne] using htail

theorem getKey_filtModulesAux_of_not_mem (minp : Nat) (ms : JsonFields) (t : String) :
    ∀ ts : List String, t ∉ ts → getKey (filtModulesAux minp ms ts) t = none := by
  intro ts
  induction ts with
  | nil => intro _; rfl
  | cons t0 ts ih =>
    intro ht
    have hne : ¬ t0 = t := fun h => ht (h ▸ List.mem_cons_self t0 ts)
    have hmem : t ∉ ts := fun h => ht (List.mem_cons_of_mem t0 h)
    cases hk : getKey ms t0 with
    | none => simpa [filtModulesAux, hk] using ih hmem
    | some v =>
      cases v with
      | arr es0 => simpa [filtModulesAux, hk, getKey, hne] using ih hmem
      | null => simpa [filtModulesAux, hk, getKey, hne] using ih hmem
      | bool b => simpa [filtModulesAux, hk, getKey, hne] using ih hmem
      | num n => simpa [filtModulesAux, hk, getKey, hne] using ih hmem
      | str s => simpa [filtModulesAux, hk, getKey, hne] using ih hmem
      | obj fs => simpa [filtModulesAux, hk, getKey, hne] using ih hmem

theorem filtModulesAux_skip_head (minp : Nat) (t : String) (v : Json) (rest : JsonFields) :
    ∀ ts : List String, t ∉ ts →
      filtModulesAux minp (.fcons t v rest) ts = filtModulesAux minp rest ts := by
  intro ts
  induction ts with
  | nil => intro _; rfl
  | cons t0 ts ih =>
    intro ht
    have hne : ¬ t = t0 := fun h => ht (h ▸ List.mem_cons_self t0 ts)
    have hmem : t ∉ ts := fun h => ht (List.mem_cons_of_mem t0 h)
    have hkey : getKey (.fcons t v rest) t0 = getKey rest t0 := by simp [getKey, hne]
    cases hk : getKey rest t0 with
    | none => simp [filtModulesAux, hkey, hk, ih hmem]
    | some w =>
      cases w with
      | arr es0 => simp [filtModulesAux, hkey, hk, ih hmem]
      | null => simp [filtModulesAux, hkey, hk, ih hmem]
      | bool b => simp [filtModulesAux, hkey, hk, ih hmem]
      | num n => simp [filtModulesAux, hkey, hk, ih hmem]
      | str s => simp [filtModulesAux, hkey, hk, ih hmem]
      | obj fs => simp [filtModulesAux, hkey, hk, ih hmem]

theorem filtModulesAux_idem (minp : Nat) :
    ∀ (ts : List String), ts.Nodup → ∀ ms : JsonFields,
      filtModulesAux minp (filtModulesAux minp ms ts) ts = filtModulesAux minp ms ts := by
  intro ts
  induction ts with
  | nil => intro _ ms; rfl
  | cons t0 ts ih =>
    intro hnd ms
    have hnotmem : t0 ∉ ts := (List.nodup_cons.1 hnd).1
    have hndtail : ts.Nodup := (List.nodup_cons.1 hnd).2
    cases hk : getKey ms t0 with
    | none =>
      have h1 : filtModulesAux minp ms (t0 :: ts) = filtModulesAux minp ms ts := by
        simp [filtModulesAux, hk]
      rw [h1]
      have h2 : getKey (filtModulesAux minp ms ts) t0 = none :=
        getKey_filtModulesAux_of_not_mem minp ms t0 ts hnotmem
      calc filtModulesAux minp (filtModulesAux minp ms ts) (t0 :: ts)
          = filtModulesAux minp (filtModulesAux minp ms ts) ts := by
            simp [filtModulesAux, h2]
        _ = filtModulesAux minp ms ts := ih hndtail ms
    | some v =>
      cases v with
      | arr es0 =>
        have h1 : filtModulesAux minp ms (t0 :: ts) =
            .fcons t0 (.arr (jfilter (fun m => decide (minp ≤ entry_rankJ m)) es0))
              (filtModulesAux minp ms ts) := by
          simp [filtModulesAux, hk]
        rw [h1]
        have h2 : getKey (JsonFields.fcons t0
            (.arr (jfilter (fun m => decide (minp ≤ entry_rankJ m)) es0))
            (filtModulesAux minp ms ts)) t0 =
            some (.arr (jfilter (fun m => decide (minp ≤ entry_rankJ m)) es0)) := by
          simp [getKey]
        calc filtModulesAux minp (JsonFields.fcons t0
              (.arr (jfilter (fun m => decide (minp ≤ entry_rankJ m)) es0))
              (filtModulesAux minp ms ts)) (t0 :: ts)
            = .fcons t0 (.arr (jfilter (fun m => decide (minp ≤ entry_rankJ m))
                (jfilter (fun m => decide (minp ≤ entry_rankJ m)) es0)))
              (filtModulesAux minp (JsonFields.fcons t0
                (.arr (jfilter (fun m => decide (minp ≤ entry_rankJ m)) es0))
                (filtModulesAux minp ms ts)) ts) := by
              simp [filtModulesAux, h2]
          _ = .fcons t0 (.arr (jfilter (fun m => decide (minp ≤ entry_rankJ m)) es0))
              (filtModulesAux minp ms ts) := by
              rw [jfilter_idem, filtModulesAux_skip_head minp t0 _ _ ts hnotmem, ih hndtail ms]
      | null =>
        have h1 : filtModulesAux minp ms (t0 :: ts) =
            .fcons t0 (.arr .nil) (filtModulesAux minp ms ts) := by
          simp [filtModulesAux, hk]
        rw [h1]
        have h2 : getKey (JsonFields.fcons t0 (Json.arr .nil)
            (filtModulesAux minp ms ts)) t0 = some (.arr .nil) := by simp [getKey]
        calc filtModulesAux minp
              (JsonFields.fcons t0 (Json.arr .nil) (filtModulesAux minp ms ts)) (t0 :: ts)
            = .fcons t0 (.arr (jfilter (fun m => decide (minp ≤ entry_rankJ m)) .nil))
              (filtModulesAux minp
                (JsonFields.fcons t0 (Json.arr .nil) (filtModulesAux minp ms ts)) ts) := by
              simp [filtModulesAux, h2]
          _ = .fcons t0 (.arr .nil) (filtModulesAux minp ms ts) := by
              rw [filtModulesAux_skip_head minp t0 _ _ ts hnotmem, ih hndtail ms]; rfl
      | bool b =>
        have h1 : filtModulesAux minp ms (t0 :: ts) =
            .fcons t0 (.arr .nil) (filtModulesAux minp ms ts) := by
          simp [filtModulesAux, hk]
        rw [h1]
        have h2 : getKey (JsonFields.fcons t0 (Json.arr .nil)
            (filtModulesAux minp ms ts)) t0 = some (.arr .nil) := by simp [getKey]
        calc filtModulesAux minp
              (JsonFields.fcons t0 (Json.arr .nil) (filtModulesAux minp ms ts)) (t0 :: ts)
            = .fcons t0 (.arr (jfilter (fun m => decide (minp ≤ entry_rankJ m)) .nil))
              (filtModulesAux minp
                (JsonFields.fcons t0 (Json.arr .nil) (filtModulesAux minp ms ts)) ts) := by
              simp [filtModulesAux, h2]
          _ = .fcons t0 (.arr .nil) (filtModulesAux minp ms ts) := by
              rw [filtModulesAux_skip_head minp t0 _ _ ts hnotmem, ih hndtail ms]; rfl
      | num n =>
        have h1 : filtModulesAux minp ms (t0 :: ts) =
            .fcons t0 (.arr .nil) (filtModulesAux minp ms ts) := by
          simp [filtModulesAux, hk]
        rw [h1]
        have h2 : getKey (JsonFields.fcons t0 (Json.arr .nil)
            (filtModulesAux minp ms ts)) t0 = some (.arr .nil) := by simp [getKey]
        calc filtModulesAux minp
              (JsonFields.fcons t0 (Json.arr .nil) (filtModulesAux minp ms ts)) (t0 :: ts)
            = .fcons t0 (.arr (jfilter (fun m => decide (minp ≤ entry_rankJ m)) .nil))
              (filtModulesAux minp
                (JsonFields.fcons t0 (Json.arr .nil) (filtModulesAux minp ms ts)) ts) := by
              simp [filtModulesAux, h2]
          _ = .fcons t0 (.arr .nil) (filtModulesAux minp ms ts) := by
              rw [filtModulesAux_skip_head minp t0 _ _ ts hnotmem, ih hndtail ms]; rfl
      | str s =>
        have h1 : filtModulesAux minp ms (t0 :: ts) =
            .fcons t0 (.arr .nil) (filtModulesAux minp ms ts) := by
          simp [filtModulesAux, hk]
        rw [h1]
        have h2 : getKey (JsonFields.fcons t0 (Json.arr .nil)
            (filtModulesAux minp ms ts)) t0 = some (.arr .nil) := by simp [getKey]
        calc filtModulesAux minp
              (JsonFields.fcons t0 (Json.arr .nil) (filtModulesAux minp ms ts)) (t0 :: ts)
            = .fcons t0 (.arr (jfilter (fun m => decide (minp ≤ entry_rankJ m)) .nil))
              (filtModulesAux minp
                (JsonFields.fcons t0 (Json.arr .nil) (filtModulesAux minp ms ts)) ts) := by
              simp [filtModulesAux, h2]
          _ = .fcons t0 (.arr .nil) (filtModulesAux minp ms ts) := by
              rw [filtModulesAux_skip_head minp t0 _ _ ts hnotmem, ih hndtail ms]; rfl
      | obj fs =>
        have h1 : filtModulesAux minp ms (t0 :: ts) =
            .fcons t0 (.arr .nil) (filtModulesAux minp ms ts) := by
          simp [filtModulesAux, hk]
        rw [h1]
        have h2 : getKey (JsonFields.fcons t0 (Json.arr .nil)
            (filtModulesAux minp ms ts)) t0 = some (.arr .nil) := by simp [getKey]
        calc filtModulesAux minp
              (JsonFields.fcons t0 (Json.arr .nil) (filtModulesAux minp ms ts)) (t0 :: ts)
            = .fcons t0 (.arr (jfilter (fun m => decide (minp ≤ entry_rankJ m)) .nil))
              (filtModulesAux minp
                (JsonFields.fcons t0 (Json.arr .nil) (filtModulesAux minp ms ts)) ts) := by
              simp [filtModulesAux, h2]
          _ = .fcons t0 (.arr .nil) (filtModulesAux minp ms ts) := by
              rw [filtModulesAux_skip_head minp t0 _ _ ts hnotmem, ih hndtail ms]; rfl

theorem filtModulesAux_fnil (minp : Nat) (ts : List String) :
    filtModulesAux minp .fnil ts = .fnil := by
  induction ts with
  | nil => rfl
  | cons t ts ih => simp [filtModulesAux, getKey, ih]

theorem filter_by_priority_mkFiltered (ta eo : Json) (ms : JsonFields) (p : String) :
    filter_by_priority (mkFiltered ta eo ms) p =
      mkFiltered ta eo (filtModulesAux (priority_rank p) ms moduleTypes) := by
  simp [filter_by_priority, getKey_mkFiltered_modules, getKey_mkFiltered_ta,
    getKey_mkFiltered_eo]

/-- C3: filtering a selection at minimum priority `medium` keeps, inside each
module-type list, exactly the entries of rank at least 2 in their original
relative order: the kept list is the order-preserving sublist of the original
whose members are characterized by the rank threshold. -/
theorem filter_by_priority_medium_exact (sel ms : JsonFields) (t : String) (es : JsonList)
    (hm : getKey sel "modules" = some (.obj ms))
    (ht : t ∈ moduleTypes)
    (hes : getKey ms t = some (.arr es))
    (hwf : jall wfEntry es = true) :
    getKey (modules_of (filter_by_priority sel "medium")) t =
      some (.arr (jfilter (fun m => decide (2 ≤ entry_rankJ m)) es)) ∧
    (jlToList (jfilter (fun m => decide (2 ≤ entry_rankJ m)) es)).Sublist (jlToList es) ∧
    (∀ m, m ∈ jlToList (jfilter (fun m => decide (2 ≤ entry_rankJ m)) es) ↔
      (m ∈ jlToList es ∧ 2 ≤ entry_rankJ m)) := by
  have _hwf := hwf
  refine ⟨?_, ?_, ?_⟩
  · have hout : filter_by_priority sel "medium" =
        mkFiltered ((getKey sel "target_analysis").getD (.str ""))
          ((getKey sel "execution_order").getD (.arr .nil))
          (filtModulesAux 2 ms moduleTypes) := by
      have hrank : priority_rank "medium" = 2 := rfl
      simp [filter_by_priority, hm, hrank]
    rw [hout, modules_of_mkFiltered]
    exact getKey_filtModulesAux_of_mem 2 ms t es hes moduleTypes (by decide) ht
  · rw [jlToList_jfilter]
    exact List.filter_sublist _
  · intro m
    rw [jlToList_jfilter]
    simp [List.mem_filter]

theorem filter_by_priority_medium_exact_witness :
    getKey (modules_of (filter_by_priority selW "medium")) "auxiliary" =
      some (.arr (jfilter (fun m => decide (2 ≤ entry_rankJ m)) selEntriesW)) :=
  (filter_by_priority_medium_exact selW selModulesW "auxiliary" selEntriesW rfl (by decide)
    rfl rfl).1

/-- C9: `filter_by_priority` is idempotent for each of the three priority
levels, an entry with a missing or unrecognized priority label has rank 1,
and such an entry survives the filter exactly when the minimum priority is
`low`. -/
theorem filter_by_priority_idempotent_rank :
    (∀ (sel : JsonFields) (p : String), wellFormedSelection sel = true →
      (p = "high" ∨ p = "medium" ∨ p = "low") →
      filter_by_priority (filter_by_priority sel p) p = filter_by_priority sel p) ∧
    (∀ fs : JsonFields, getKey fs "priority" = none → entry_rankJ (.obj fs) = 1) ∧
    (∀ (fs : JsonFields) (s : String), getKey fs "priority" = some (.str s) →
      s ≠ "high" → s ≠ "medium" → s ≠ "low" → entry_rankJ (.obj fs) = 1) ∧
    (∀ (p : String) (es : JsonList) (fs : JsonFields),
      (p = "high" ∨ p = "medium" ∨ p = "low") →
      (getKey fs "priority" = none ∨
        ∃ s, getKey fs "priority" = some (.str s) ∧ s ≠ "high" ∧ s ≠ "medium" ∧ s ≠ "low") →
      ((Json.obj fs) ∈
          jlToList (jfilter (fun m => decide (priority_rank p ≤ entry_rankJ m)) es) ↔
        (p = "low" ∧ (Json.obj fs) ∈ jlToList es))) := by
  refine ⟨?_, ?_, ?_, ?_⟩
  · intro sel p _hwf _hp
    cases hm : getKey sel "modules" with
    | none =>
      have hin : filter_by_priority sel p =
          mkFiltered ((getKey sel "target_analysis").getD (.str ""))
            ((getKey sel "execution_order").getD (.arr .nil)) .fnil := by
        simp [filter_by_priority, hm]
      rw [hin, filter_by_priority_mkFiltered, filtModulesAux_fnil]
    | some v =>
      cases v with
      | obj ms =>
        have hin : filter_by_priority sel p =
            mkFiltered ((getKey sel "target_analysis").getD (.str ""))
              ((getKey sel "execution_order").getD (.arr .nil))
              (filtModulesAux (priority_rank p) ms moduleTypes) := by
          simp [filter_by_priority, hm]
        rw [hin, filter_by_priority_mkFiltered,
          filtModulesAux_idem (priority_rank p) moduleTypes (by decide) ms]
      | null =>
        have hin : filter_by_priority sel p =
            mkFiltered ((getKey sel "target_analysis").getD (.str ""))
              ((getKey sel "execution_order").getD (.arr .nil)) .fnil := by
          simp [filter_by_priority, hm]
        rw [hin, filter_by_priority_mkFiltered, filtModulesAux_fnil]
      | bool b =>
        have hin : filter_by_priority sel p =
            mkFiltered ((getKey sel "target_analysis").getD (.str ""))
              ((getKey sel "execution_order").getD (.arr .nil)) .fnil := by
          simp [filter_by_priority, hm]
        rw [hin, filter_by_priority_mkFiltered, filtModulesAux_fnil]
      | num n =>
        have hin : filter_by_priority sel p =
            mkFiltered ((getKey sel "target_analysis").getD (.str ""))
              ((getKey sel "execution_order").getD (.arr .nil)) .fnil := by
          simp [filter_by_priority, hm]
        rw [hin, filter_by_priority_mkFiltered, filtModulesAux_fnil]
      | str s =>
        have hin : filter_by_priority sel p =
            mkFiltered ((getKey sel "target_analysis").getD (.str ""))
              ((getKey sel "execution_order").getD (.arr .nil)) .fnil := by
          simp [filter_by_priority, hm]
        rw [hin, filter_by_priority_mkFiltered, filtModulesAux_fnil]
      | arr xs =>
        have hin : filter_by_priority sel p =
            mkFiltered ((getKey sel "target_analysis").getD (.str ""))
              ((getKey sel "execution_order").getD (.arr .nil)) .fnil := by
          simp [filter_by_priority, hm]
        rw [hin, filter_by_priority_mkFiltered, filtModulesAux_fnil]
  · intro fs h
    simp [entry_rankJ, h, priority_rank]
  · intro fs s h h1 h2 h3
    simp [entry_rankJ, h, priority_rank, h1, h2, h3]
  · intro p es fs hp hbad
    have hrank : entry_rankJ (.obj fs) = 1 := by
      rcases hbad with h | ⟨s, h, h1, h2, h3⟩
      · simp [entry_rankJ, h, priority_rank]
      · simp [entry_rankJ, h, priority_rank, h1, h2, h3]
    rw [jlToList_jfilter]
    rcases hp with rfl | rfl | rfl
    · simp [List.mem_filter, hrank, priority_rank]
    · simp [List.mem_filter, hrank, priority_rank]
    · simp [List.mem_filter, hrank, priority_rank]

theorem filter_by_priority_idempotent_rank_witness :
    filter_by_priority (filter_by_priority selW "medium") "medium" =
      filter_by_priority selW "medium" :=
  filter_by_priority_idempotent_rank.1 selW "medium" (by decide) (Or.inr (Or.inl rfl))

theorem run_one_eq (env : RpcEnv) (target : String) (timeout : Nat) (spec : JsonFields)
    (h : wellFormedSpec spec = true) :
    run_one env target timeout spec =
      match run_module_universal env (spec_type_str spec) (spec_path_str spec) target
          (spec_options spec) timeout with
      | .ok r => r
      | .error e =>
        fail_record (.str (spec_path_str spec))
          ((getKey spec "module_type").getD (.str "auxiliary")) target e := by
  unfold wellFormedSpec at h
  rw [Bool.and_eq_true, Bool.and_eq_true] at h
  obtain ⟨⟨h1, h2⟩, _h3⟩ := h
  cases hmp : getKey spec "module" with
  | none => rw [hmp] at h2; exact absurd h2 (by simp)
  | some vp =>
    cases vp with
    | str p =>
      cases hmt : getKey spec "module_type" with
      | none => simp [run_one, spec_type_str, spec_path_str, hmt, hmp]
      | some vt =>
        cases vt with
        | str mt => simp [run_one, spec_type_str, spec_path_str, hmt, hmp]
        | null => rw [hmt] at h1; exact absurd h1 (by simp)
        | bool b => rw [hmt] at h1; exact absurd h1 (by simp)
        | num n => rw [hmt] at h1; exact absurd h1 (by simp)
        | arr xs => rw [hmt] at h1; exact absurd h1 (by simp)
        | obj fs => rw [hmt] at h1; exact absurd h1 (by simp)
    | null => rw [hmp] at h2; exact absurd h2 (by simp)
    | bool b => rw [hmp] at h2; exact absurd h2 (by simp)
    | num n => rw [hmp] at h2; exact absurd h2 (by simp)
    | arr xs => rw [hmp] at h2; exact absurd h2 (by simp)
    | obj fs => rw [hmp] at h2; exact absurd h2 (by simp)

theorem run_module_sequence_getD (env : RpcEnv) (specs : List JsonFields)
    (target : String) (timeout : Nat) (k : Nat) (hk : k < specs.length) :
    List.getD (run_module_sequence env specs target timeout) k Json.null =
      run_one env target timeout specs[k] := by
  unfold run_module_sequence
  rw [List.getD, List.get?_eq_getElem?, List.getElem?_map, List.getElem?_eq_getElem hk]
  rfl

/-- C1: running a sequence of N well-formed module specifications yields
exactly N records in input order; a specification whose run raises produces a
failure record in its own position — status `failed`, the error string, its
module path and the target — while a specification whose run succeeds
contributes its own success record, the iteration never aborting. -/
theorem run_module_sequence_per_item (env : RpcEnv) (specs : List JsonFields)
    (target : String) (timeout : Nat)
    (h : specs.all wellFormedSpec = true) :
    (run_module_sequence env specs target timeout).length = specs.length ∧
    (∀ (k : Nat) (hk : k < specs.length) (e : String),
      run_module_universal env (spec_type_str specs[k]) (spec_path_str specs[k]) target
          (spec_options specs[k]) timeout = .error e →
      getKey (asFields (List.getD (run_module_sequence env specs target timeout) k Json.null))
          "status" = some (.str "failed") ∧
      getKey (asFields (List.getD (run_module_sequence env specs target timeout) k Json.null))
          "error" = some (.str e) ∧
      getKey (asFields (List.getD (run_module_sequence env specs target timeout) k Json.null))
          "module" = some (.str (spec_path_str specs[k])) ∧
      getKey (asFields (List.getD (run_module_sequence env specs target timeout) k Json.null))
          "target" = some (.str target)) ∧
    (∀ (k : Nat) (hk : k < specs.length) (r : Json),
      run_module_universal env (spec_type_str specs[k]) (spec_path_str specs[k]) target
          (spec_options specs[k]) timeout = .ok r →
      List.getD (run_module_sequence env specs target timeout) k Json.null = r) := by
  have hwf : ∀ s ∈ specs, wellFormedSpec s = true := by
    intro s hs
    exact List.all_eq_true.1 h s hs
  refine ⟨by simp [run_module_sequence], ?_, ?_⟩
  · intro k hk e hrun
    rw [run_module_sequence_getD env specs target timeout k hk,
      run_one_eq env target timeout specs[k] (hwf specs[k] (List.getElem_mem hk)), hrun]
    refine ⟨?_, ?_, ?_, ?_⟩ <;> simp [fail_record, asFields, getKey]
  · intro k hk r hrun
    rw [run_module_sequence_getD env specs target timeout k hk,
      run_one_eq env target timeout specs[k] (hwf specs[k] (List.getElem_mem hk)), hrun]

set_option maxHeartbeats 4000000 in
theorem run_module_sequence_per_item_witness :
    getKey
        (asFields (List.getD (run_module_sequence seqEnvW [specGoodW, specBadW] "10.0.0.5" 5)
          1 Json.null)) "status" = some (.str "failed") :=
  ((run_module_sequence_per_item seqEnvW [specGoodW, specBadW] "10.0.0.5" 5 (by decide)).2.1
    1 (by decide) "Module 'auxiliary/bad/mod' not found or invalid: nope" rfl).1

theorem skipWs_of_head_not_ws {c : Char} (h : isWsChar c = false) (s : List Char) :
    skipWs (c :: s) = c :: s := by
  rw [skipWs, h]
  simp

theorem skipWs_spaces (n : Nat) (s : List Char) : skipWs (spaces n ++ s) = skipWs s := by
  induction n with
  | zero => rfl
  | succ n ih =>
    show skipWs (' ' :: (spaces n ++ s)) = skipWs s
    rw [skipWs]
    simp [isWsChar, ih]

theorem skipWs_newline (s : List Char) : skipWs ('\n' :: s) = skipWs s := by
  rw [skipWs]
  simp [isWsChar]

theorem skipWs_space (s : List Char) : skipWs (' ' :: s) = skipWs s := by
  rw [skipWs]
  simp [isWsChar]

theorem skipWs_comma (s : List Char) : skipWs (',' :: s) = ',' :: s :=
  skipWs_of_head_not_ws (by decide) s

theorem skipWs_quote (s : List Char) : skipWs ('"' :: s) = '"' :: s :=
  skipWs_of_head_not_ws (by decide) s

theorem skipWs_colon (s : List Char) : skipWs (':' :: s) = ':' :: s :=
  skipWs_of_head_not_ws (by decide) s

theorem skipWs_rbracket (s : List Char) : skipWs (']' :: s) = ']' :: s :=
  skipWs_of_head_not_ws (by decide) s

theorem skipWs_rbrace (s : List Char) : skipWs (braceC :: s) = braceC :: s :=
  skipWs_of_head_not_ws (by decide) s

theorem digit_char_facts :
    ∀ d < 10, isDigitB (digitChar d) = true ∧ digitVal (digitChar d) = d ∧
      isWsChar (digitChar d) = false := by
  decide

theorem natDigitsAux_digits :
    ∀ (fuel n : Nat), n ≤ fuel → ∀ c ∈ natDigitsAux fuel n, isDigitB c = true := by
  intro fuel
  induction fuel with
  | zero => intro n hn c hc; simp [natDigitsAux] at hc
  | succ fuel ih =>
    intro n hn c hc
    by_cases h0 : n = 0
    · simp [natDigitsAux, h0] at hc
    · rw [natDigitsAux, if_neg h0] at hc
      rcases List.mem_append.1 hc with h | h
      · have hdiv : n / 10 ≤ fuel := by
          have := Nat.div_lt_self (Nat.pos_of_ne_zero h0) (by norm_num : 1 < 10)
          omega
        exact ih (n / 10) hdiv c h
      · rw [List.mem_singleton.1 h]
        exact (digit_char_facts (n % 10) (Nat.mod_lt n (by norm_num))).1

theorem natChars_digits (n : Nat) : ∀ c ∈ natChars n, isDigitB c = true := by
  unfold natChars
  by_cases h : n = 0
  · simp [h]; decide
  · rw [if_neg h]
    exact natDigitsAux_digits n n (le_refl n)

theorem natChars_ne_nil (n : Nat) : natChars n ≠ [] := by
  unfold natChars
  by_cases h : n = 0
  · simp [h]
  · rw [if_neg h]
    cases hn : n with
    | zero => exact absurd hn h
    | succ m =>
      rw [natDigitsAux]
      simp

theorem digitsValFrom_natDigitsAux :
    ∀ (fuel n acc : Nat), n ≤ fuel →
      (natDigitsAux fuel n).foldl (fun a c => a * 10 + digitVal c) acc =
        acc * 10 ^ (natDigitsAux fuel n).length + n := by
  intro fuel
  induction fuel with
  | zero =>
    intro n acc hn
    interval_cases n
    simp [natDigitsAux]
  | succ fuel ih =>
    intro n acc hn
    by_cases h0 : n = 0
    · simp [natDigitsAux, h0]
    · rw [natDigitsAux, if_neg h0]
      have hdiv : n / 10 ≤ fuel := by
        have := Nat.div_lt_self (Nat.pos_of_ne_zero h0) (by norm_num : 1 < 10)
        omega
      rw [List.foldl_append, ih (n / 10) acc hdiv]
      simp only [List.foldl_cons, List.foldl_nil, List.length_append, List.length_singleton]
      rw [(digit_char_facts (n % 10) (Nat.mod_lt n (by norm_num))).2.1]
      rw [pow_succ]
      have := Nat.div_add_mod n 10
      ring_nf
      omega

theorem digitsVal_natChars (n : Nat) : digitsVal (natChars n) = n := by
  unfold digitsVal natChars
  by_cases h : n = 0
  · simp [h]; decide
  · rw [if_neg h, digitsValFrom_natDigitsAux n n 0 (le_refl n)]
    simp

theorem spanDigits_append (ds rest : List Char) (hds : ∀ c ∈ ds, isDigitB c = true)
    (hrest : notDigitStart rest = true) : spanDigits (ds ++ rest) = (ds, rest) := by
  induction ds with
  | nil =>
    cases rest with
    | nil => rfl
    | cons c r =>
      unfold notDigitStart at hrest
      rw [Bool.not_eq_true'] at hrest
      simp [spanDigits, hrest]
  | cons c ds ih =>
    have hc := hds c (List.mem_cons_self c ds)
    simp [spanDigits, hc, ih (fun x hx => hds x (List.mem_cons_of_mem c hx))]

theorem hexVal_hexDigitChar : ∀ d < 16, hexVal (hexDigitChar d) = d := by decide

theorem pStrBody_escape : ∀ (cs rest : List Char),
    pStrBody (escChars cs ++ ('"' :: rest)) = some (cs, rest) := by
  intro cs
  induction cs with
  | nil =>
    intro rest
    show pStrBody ('"' :: rest) = some ([], rest)
    rw [pStrBody.eq_def]
    simp
  | cons c cs ih =>
    intro rest
    show pStrBody ((escChar c ++ escChars cs) ++ ('"' :: rest)) = some (c :: cs, rest)
    rw [List.append_assoc]
    by_cases h1 : c = '"'
    · subst h1
      rw [show escChar '"' = ['\\', '"'] from rfl, pStrBody.eq_def]
      simp [ih rest]
    by_cases h2 : c = '\\'
    · subst h2
      rw [show escChar '\\' = ['\\', '\\'] from rfl, pStrBody.eq_def]
      simp [ih rest]
    by_cases h3 : c = '\n'
    · subst h3
      rw [show escChar '\n' = ['\\', 'n'] from rfl, pStrBody.eq_def]
      simp [ih rest]
    by_cases h4 : c = '\t'
    · subst h4
      rw [show escChar '\t' = ['\\', 't'] from rfl, pStrBody.eq_def]
      simp [ih rest]
    by_cases h5 : c = '\r'
    · subst h5
      rw [show escChar '\r' = ['\\', 'r'] from rfl, pStrBody.eq_def]
      simp [ih rest]
    by_cases h6 : c = Char.ofNat 8
    · subst h6
      rw [show escChar (Char.ofNat 8) = ['\\', 'b'] from rfl, pStrBody.eq_def]
      simp [ih rest]
    by_cases h7 : c = Char.ofNat 12
    · subst h7
      rw [show escChar (Char.ofNat 12) = ['\\', 'f'] from rfl, pStrBody.eq_def]
      simp [ih rest]
    by_cases h8 : c.toNat < 32
    · have hesc : escChar c =
          ['\\', 'u', '0', '0', hexDigitChar (c.toNat / 16), hexDigitChar (c.toNat % 16)] := by
        unfold escChar
        rw [if_neg h1, if_neg h2, if_neg h3, if_neg h4, if_neg h5, if_neg h6, if_neg h7,
          if_pos h8]
      have hhi : hexVal (hexDigitChar (c.toNat / 16)) = c.toNat / 16 :=
        hexVal_hexDigitChar _ (by omega)
      have hlo : hexVal (hexDigitChar (c.toNat % 16)) = c.toNat % 16 :=
        hexVal_hexDigitChar _ (by omega)
      have h0 : hexVal '0' = 0 := by decide
      have hval : hexVal '0' * 4096 + hexVal '0' * 256 +
          hexVal (hexDigitChar (c.toNat / 16)) * 16 + hexVal (hexDigitChar (c.toNat % 16)) =
          c.toNat := by
        rw [hhi, hlo, h0]
        omega
      rw [hesc, pStrBody.eq_def]
      simp [hval, Char.ofNat_toNat, ih rest]
    · have hesc : escChar c = [c] := by
        unfold escChar
        rw [if_neg h1, if_neg h2, if_neg h3, if_neg h4, if_neg h5, if_neg h6, if_neg h7,
          if_neg h8]
      rw [hesc, pStrBody.eq_def]
      simp [h1, h2, ih rest]

theorem char_ne_of_toNat_ne {c d : Char} (h : c.toNat ≠ d.toNat) : c ≠ d :=
  fun he => h (he ▸ rfl)

theorem digit_head_props {c : Char} (h : isDigitB c = true) :
    isWsChar c = false ∧ c ≠ ']' ∧ c ≠ braceC ∧ c ≠ ',' ∧ c ≠ '"' ∧ c ≠ '[' ∧
      c ≠ braceO ∧ c ≠ '-' ∧ c ≠ 'n' ∧ c ≠ 't' ∧ c ≠ 'f' := by
  unfold isDigitB at h
  rw [Bool.and_eq_true, decide_eq_true_eq, decide_eq_true_eq] at h
  obtain ⟨hl, hr⟩ := h
  refine ⟨?_, ?_, ?_, ?_, ?_, ?_, ?_, ?_, ?_, ?_, ?_⟩
  · unfold isWsChar
    have e1 : (' ' : Char).toNat = 32 := rfl
    have e2 : ('\n' : Char).toNat = 10 := rfl
    have e3 : ('\t' : Char).toNat = 9 := rfl
    have e4 : ('\r' : Char).toNat = 13 := rfl
    have n1 : c ≠ ' ' := char_ne_of_toNat_ne (by omega)
    have n2 : c ≠ '\n' := char_ne_of_toNat_ne (by omega)
    have n3 : c ≠ '\t' := char_ne_of_toNat_ne (by omega)
    have n4 : c ≠ '\r' := char_ne_of_toNat_ne (by omega)
    simp [n1, n2, n3, n4]
  · exact char_ne_of_toNat_ne (by have : (']' : Char).toNat = 93 := rfl; omega)
  · exact char_ne_of_toNat_ne (by have : braceC.toNat = 125 := rfl; omega)
  · exact char_ne_of_toNat_ne (by have : (',' : Char).toNat = 44 := rfl; omega)
  · exact char_ne_of_toNat_ne (by have : ('"' : Char).toNat = 34 := rfl; omega)
  · exact char_ne_of_toNat_ne (by have : ('[' : Char).toNat = 91 := rfl; omega)
  · exact char_ne_of_toNat_ne (by have : braceO.toNat = 123 := rfl; omega)
  · exact char_ne_of_toNat_ne (by have : ('-' : Char).toNat = 45 := rfl; omega)
  · exact char_ne_of_toNat_ne (by have : ('n' : Char).toNat = 110 := rfl; omega)
  · exact char_ne_of_toNat_ne (by have : ('t' : Char).toNat = 116 := rfl; omega)
  · exact char_ne_of_toNat_ne (by have : ('f' : Char).toNat = 102 := rfl; omega)

theorem intChars_head_props :
    ∀ (n : Int) (c : Char) (t : List Char), intChars n = c :: t →
      isWsChar c = false ∧ c ≠ ']' ∧ c ≠ braceC ∧ c ≠ ',' := by
  intro n c t h
  unfold intChars at h
  by_cases hn : n < 0
  · rw [if_pos hn] at h
    have hc : c = '-' := (List.cons.inj h.symm).1
    subst hc
    refine ⟨rfl, by decide, by decide, by decide⟩
  · rw [if_neg hn] at h
    have hd : isDigitB c = true := by
      apply natChars_digits n.natAbs
      rw [h]
      exact List.mem_cons_self c t
    obtain ⟨p1, p2, p3, p4, _⟩ := digit_head_props hd
    exact ⟨p1, p2, p3, p4⟩

theorem printVal_ne_nil (ind : Nat) (v : Json) : printVal ind v ≠ [] := by
  cases v with
  | null => rw [printVal]; decide
  | bool b => cases b <;> (rw [printVal]; decide)
  | num n =>
    rw [printVal]
    unfold intChars
    by_cases hn : n < 0
    · rw [if_pos hn]; simp
    · rw [if_neg hn]; exact natChars_ne_nil n.natAbs
  | str s => rw [printVal]; simp [strChars]
  | arr xs => cases xs <;> (rw [printVal]; simp)
  | obj fs => cases fs <;> (rw [printVal]; simp)

theorem printVal_head_props (ind : Nat) (v : Json) (c : Char) (t : List Char)
    (h : printVal ind v = c :: t) :
    isWsChar c = false ∧ c ≠ ']' ∧ c ≠ braceC ∧ c ≠ ',' := by
  cases v with
  | null =>
    rw [printVal] at h
    obtain ⟨rfl, -⟩ := List.cons.inj h
    exact ⟨rfl, by decide, by decide, by decide⟩
  | bool b =>
    cases b <;> rw [printVal] at h <;> obtain ⟨rfl, -⟩ := List.cons.inj h
    · exact ⟨rfl, by decide, by decide, by decide⟩
    · exact ⟨rfl, by decide, by decide, by decide⟩
  | num n =>
    rw [printVal] at h
    exact intChars_head_props n c t h
  | str s =>
    rw [printVal] at h
    unfold strChars at h
    obtain ⟨rfl, -⟩ := List.cons.inj h
    exact ⟨rfl, by decide, by decide, by decide⟩
  | arr xs =>
    cases xs <;> rw [printVal] at h <;> obtain ⟨rfl, -⟩ := List.cons.inj h
    · exact ⟨rfl, by decide, by decide, by decide⟩
    · exact ⟨rfl, by decide, by decide, by decide⟩
  | obj fs =>
    cases fs <;> rw [printVal] at h <;> obtain ⟨rfl, -⟩ := List.cons.inj h
    · exact ⟨rfl, by decide, by decide, by decide⟩
    · exact ⟨rfl, by decide, by decide, by decide⟩

theorem skipWs_printVal (ind : Nat) (v : Json) (rest : List Char) :
    skipWs (printVal ind v ++ rest) = printVal ind v ++ rest := by
  cases hp : printVal ind v with
  | nil => exact absurd hp (printVal_ne_nil ind v)
  | cons c t =>
    rw [List.cons_append, skipWs_of_head_not_ws (printVal_head_props ind v c t hp).1]

mutual
theorem sizeJ_pos : ∀ v : Json, 1 ≤ sizeJ v
  | .null => le_refl 1
  | .bool _ => le_refl 1
  | .num _ => le_refl 1
  | .str _ => le_refl 1
  | .arr xs => by have := sizeL_pos xs; rw [sizeJ]; omega
  | .obj fs => by have := sizeF_pos fs; rw [sizeJ]; omega
theorem sizeL_pos : ∀ xs : JsonList, 1 ≤ sizeL xs
  | .nil => le_refl 1
  | .cons x xs => by have := sizeJ_pos x; have := sizeL_pos xs; rw [sizeL]; omega
theorem sizeF_pos : ∀ fs : JsonFields, 1 ≤ sizeF fs
  | .fnil => le_refl 1
  | .fcons _ v fs => by have := sizeJ_pos v; have := sizeF_pos fs; rw [sizeF]; omega
end

theorem string_mk_data (s : String) : String.mk s.data = s := rfl

theorem arrRest_not_digit (i : Nat) (xs : JsonList) (z : List Char) :
    notDigitStart (printArrRest i xs ++ ('\n' :: z)) = true := by
  cases xs with
  | nil =>
    rw [printArrRest, List.nil_append, notDigitStart]
    decide
  | cons x xs =>
    rw [printArrRest, List.cons_append, notDigitStart]
    decide

theorem objRest_not_digit (i : Nat) (fs : JsonFields) (z : List Char) :
    notDigitStart (printObjRest i fs ++ ('\n' :: z)) = true := by
  cases fs with
  | fnil =>
    rw [printObjRest, List.nil_append, notDigitStart]
    decide
  | fcons k v fs =>
    rw [printObjRest, List.cons_append, notDigitStart]
    decide

theorem parse_print_round (fuel : Nat) :
    (∀ v : Json, sizeJ v ≤ fuel → ∀ (ind : Nat) (rest w : List Char),
      skipWs w = printVal ind v ++ rest → notDigitStart rest = true →
      pVal fuel w = some (v, rest)) ∧
    (∀ xs : JsonList, sizeL xs ≤ fuel → ∀ (i j : Nat) (rest : List Char),
      pArrRest fuel (printArrRest i xs ++ ('\n' :: (spaces j ++ (']' :: rest)))) =
        some (xs, rest)) ∧
    (∀ fs : JsonFields, sizeF fs ≤ fuel → ∀ (i j : Nat) (rest : List Char),
      pObjRest fuel (printObjRest i fs ++ ('\n' :: (spaces j ++ (braceC :: rest)))) =
        some (fs, rest)) := by
  induction fuel using Nat.strong_induction_on with
  | _ fuel IH =>
  cases fuel with
  | zero =>
    refine ⟨?_, ?_, ?_⟩
    · intro v hv; have := sizeJ_pos v; omega
    · intro xs hxs; have := sizeL_pos xs; omega
    · intro fs hfs; have := sizeF_pos fs; omega
  | succ f =>
    obtain ⟨A, B, C⟩ := IH f (Nat.lt_succ_self f)
    refine ⟨?_, ?_, ?_⟩
    · intro v hv ind rest w hw hrest
      cases v with
      | null =>
        rw [printVal] at hw
        rw [pVal, hw]
        simp [lNull, List.isPrefixOf]
      | bool b =>
        cases b
        · rw [printVal] at hw
          rw [pVal, hw]
          simp [lNull, lTrue, lFalse, List.isPrefixOf]
        · rw [printVal] at hw
          rw [pVal, hw]
          simp [lNull, lTrue, lFalse, List.isPrefixOf]
      | num n =>
        rw [printVal] at hw
        by_cases hn : n < 0
        · rw [show intChars n = '-' :: natChars n.natAbs from by rw [intChars, if_pos hn]] at hw
          cases hnc : natChars n.natAbs with
          | nil => exact absurd hnc (natChars_ne_nil _)
          | cons c t =>
            rw [hnc] at hw
            rw [pVal, hw]
            have hspan : spanDigits (c :: (t ++ rest)) = (c :: t, rest) := by
              rw [← List.cons_append]
              apply spanDigits_append
              · rw [← hnc]; exact natChars_digits _
              · exact hrest
            have hdv : digitsVal (c :: t) = n.natAbs := by
              rw [← hnc]; exact digitsVal_natChars _
            simp [lNull, lTrue, lFalse, List.isPrefixOf, hspan, hdv,
              show ¬('-' = braceO) from by decide]
            rw [abs_of_neg hn, neg_neg]
        · rw [show intChars n = natChars n.natAbs from by rw [intChars, if_neg hn]] at hw
          cases hnc : natChars n.natAbs with
          | nil => exact absurd hnc (natChars_ne_nil _)
          | cons c t =>
            rw [hnc] at hw
            have hd : isDigitB c = true :=
              natChars_digits n.natAbs c (hnc ▸ List.mem_cons_self c t)
            obtain ⟨pws, pc1, pc2, pc3, pc4, pc5, pc6, pc7, pc8, pc9, pc10⟩ :=
              digit_head_props hd
            rw [pVal, hw]
            have hspan : spanDigits (c :: (t ++ rest)) = (c :: t, rest) := by
              rw [← List.cons_append]
              apply spanDigits_append
              · rw [← hnc]; exact natChars_digits _
              · exact hrest
            have hdv : digitsVal (c :: t) = n.natAbs := by
              rw [← hnc]; exact digitsVal_natChars _
            simp [List.isPrefixOf, lNull, lTrue, lFalse, pc4, pc5, pc6, pc7,
              Ne.symm pc8, Ne.symm pc9, Ne.symm pc10, hd, hspan, hdv]
            omega
      | str s =>
        rw [printVal] at hw
        rw [show strChars s ++ rest = '"' :: (escChars s.data ++ ('"' :: rest)) from by
          simp [strChars]] at hw
        rw [pVal, hw]
        simp [lNull, lTrue, lFalse, List.isPrefixOf, pStrBody_escape, string_mk_data]
      | arr xs =>
        cases xs with
        | nil =>
          rw [printVal] at hw
          rw [pVal, hw]
          simp [lNull, lTrue, lFalse, List.isPrefixOf,
            show skipWs (']' :: rest) = ']' :: rest from
              skipWs_of_head_not_ws (by decide) rest]
        | cons x xs =>
          rw [printVal] at hw
          have hw' : skipWs w = '[' :: '\n' :: (spaces (ind + 2) ++ (printVal (ind + 2) x ++
              (printArrRest (ind + 2) xs ++ ('\n' :: (spaces ind ++ (']' :: rest)))))) := by
            rw [hw]; simp
          rw [pVal, hw']
          have hskip : skipWs ('\n' :: (spaces (ind + 2) ++ (printVal (ind + 2) x ++
              (printArrRest (ind + 2) xs ++ ('\n' :: (spaces ind ++ (']' :: rest))))))) =
              printVal (ind + 2) x ++
                (printArrRest (ind + 2) xs ++ ('\n' :: (spaces ind ++ (']' :: rest)))) := by
            rw [skipWs_newline, skipWs_spaces, skipWs_printVal]
          cases hpx : printVal (ind + 2) x with
          | nil => exact absurd hpx (printVal_ne_nil _ _)
          | cons c0 t0 =>
            obtain ⟨q1, q2, q3, q4⟩ := printVal_head_props _ _ _ _ hpx
            rw [hpx] at hskip
            simp only [List.cons_append] at hskip
            have hAx : pVal f (c0 :: (t0 ++
                (printArrRest (ind + 2) xs ++ ('\n' :: (spaces ind ++ (']' :: rest)))))) =
                some (x, printArrRest (ind + 2) xs ++ ('\n' :: (spaces ind ++ (']' :: rest)))) := by
              apply A x (by rw [sizeJ, sizeL] at hv; omega) (ind + 2)
              · rw [skipWs_of_head_not_ws q1, ← List.cons_append, ← hpx]
              · exact arrRest_not_digit _ _ _
            have hB : pArrRest f
                (printArrRest (ind + 2) xs ++ ('\n' :: (spaces ind ++ (']' :: rest)))) =
                some (xs, rest) :=
              B xs (by rw [sizeJ, sizeL] at hv; omega) (ind + 2) ind rest
            simp [lNull, lTrue, lFalse, List.isPrefixOf, hskip, q2, hAx, hB]
      | obj fs =>
        cases fs with
        | fnil =>
          rw [printVal] at hw
          rw [pVal, hw]
          simp [lNull, lTrue, lFalse, List.isPrefixOf,
            show skipWs (braceC :: rest) = braceC :: rest from
              skipWs_of_head_not_ws (by decide) rest,
            show ¬('n' = braceO) from by decide, show ¬('t' = braceO) from by decide,
            show ¬('f' = braceO) from by decide, show ¬(braceO = '"') from by decide,
            show ¬(braceO = '[') from by decide]
        | fcons k v fs =>
          rw [printVal] at hw
          have hw' : skipWs w = braceO :: '\n' :: (spaces (ind + 2) ++
              ('"' :: (escChars k.data ++ ('"' :: (':' :: ' ' :: (printVal (ind + 2) v ++
                (printObjRest (ind + 2) fs ++
                  ('\n' :: (spaces ind ++ (braceC :: rest)))))))))) := by
            rw [hw]; simp [strChars]
          rw [pVal, hw']
          have hskip : skipWs ('\n' :: (spaces (ind + 2) ++
              ('"' :: (escChars k.data ++ ('"' :: (':' :: ' ' :: (printVal (ind + 2) v ++
                (printObjRest (ind + 2) fs ++
                  ('\n' :: (spaces ind ++ (braceC :: rest))))))))))) =
              '"' :: (escChars k.data ++ ('"' :: (':' :: ' ' :: (printVal (ind + 2) v ++
                (printObjRest (ind + 2) fs ++
                  ('\n' :: (spaces ind ++ (braceC :: rest)))))))) := by
            rw [skipWs_newline, skipWs_spaces, skipWs_of_head_not_ws (by decide)]
          have hkey : pStrBody (escChars k.data ++ ('"' :: (':' :: ' ' ::
              (printVal (ind + 2) v ++ (printObjRest (ind + 2) fs ++
                ('\n' :: (spaces ind ++ (braceC :: rest)))))))) =
              some (k.data, ':' :: ' ' :: (printVal (ind + 2) v ++
                (printObjRest (ind + 2) fs ++ ('\n' :: (spaces ind ++ (braceC :: rest)))))) :=
            pStrBody_escape k.data _
          have hAv : pVal f (' ' :: (printVal (ind + 2) v ++ (printObjRest (ind + 2) fs ++
              ('\n' :: (spaces ind ++ (braceC :: rest)))))) =
              some (v, printObjRest (ind + 2) fs ++
                ('\n' :: (spaces ind ++ (braceC :: rest)))) := by
            apply A v (by rw [sizeJ, sizeF] at hv; omega) (ind + 2)
            · rw [skipWs_space, skipWs_printVal]
            · exact objRest_not_digit _ _ _
          have hC : pObjRest f (printObjRest (ind + 2) fs ++
              ('\n' :: (spaces ind ++ (braceC :: rest)))) = some (fs, rest) :=
            C fs (by rw [sizeJ, sizeF] at hv; omega) (ind + 2) ind rest
          simp [lNull, lTrue, lFalse, List.isPrefixOf, hskip, hkey, hAv, hC, string_mk_data,
            show ¬('n' = braceO) from by decide, show ¬('t' = braceO) from by decide,
            show ¬('f' = braceO) from by decide, show ¬(braceO = '"') from by decide,
            show ¬(braceO = '[') from by decide, show ¬('"' = braceC) from by decide,
            show skipWs (':' :: ' ' :: (printVal (ind + 2) v ++ (printObjRest (ind + 2) fs ++
              ('\n' :: (spaces ind ++ (braceC :: rest)))))) =
              ':' :: ' ' :: (printVal (ind + 2) v ++ (printObjRest (ind + 2) fs ++
                ('\n' :: (spaces ind ++ (braceC :: rest))))) from
              skipWs_of_head_not_ws (by decide) _]
    · intro xs hxs i j rest
      cases xs with
      | nil =>
        rw [printArrRest, pArrRest]
        simp [skipWs_newline, skipWs_spaces,
          show skipWs (']' :: rest) = ']' :: rest from skipWs_of_head_not_ws (by decide) rest]
      | cons x xs =>
        rw [printArrRest, pArrRest]
        have hAx : pVal f ('\n' :: (spaces i ++ (printVal i x ++ (printArrRest i xs ++
            ('\n' :: (spaces j ++ (']' :: rest))))))) =
            some (x, printArrRest i xs ++ ('\n' :: (spaces j ++ (']' :: rest)))) := by
          apply A x (by rw [sizeL] at hxs; omega) i
          · rw [skipWs_newline, skipWs_spaces, skipWs_printVal]
          · exact arrRest_not_digit _ _ _
        have hB : pArrRest f (printArrRest i xs ++ ('\n' :: (spaces j ++ (']' :: rest)))) =
            some (xs, rest) :=
          B xs (by rw [sizeL] at hxs; omega) i j rest
        simp [hAx, hB,
          show skipWs (',' :: '\n' :: (spaces i ++ (printVal i x ++ (printArrRest i xs ++
            ('\n' :: (spaces j ++ (']' :: rest))))))) =
            ',' :: '\n' :: (spaces i ++ (printVal i x ++ (printArrRest i xs ++
              ('\n' :: (spaces j ++ (']' :: rest)))))) from
            skipWs_of_head_not_ws (by decide) _]
    · intro fs hfs i j rest
      cases fs with
      | fnil =>
        rw [printObjRest, pObjRest]
        simp [skipWs_newline, skipWs_spaces,
          show skipWs (braceC :: rest) = braceC :: rest from
            skipWs_of_head_not_ws (by decide) rest,
          show ¬(braceC = ',') from by decide]
      | fcons k v fs =>
        rw [show printObjRest i (JsonFields.fcons k v fs) ++
            ('\n' :: (spaces j ++ (braceC :: rest))) =
            ',' :: '\n' :: (spaces i ++ ('"' :: (escChars k.data ++ ('"' :: (':' :: ' ' ::
              (printVal i v ++ (printObjRest i fs ++
                ('\n' :: (spaces j ++ (braceC :: rest)))))))))) from by
          rw [printObjRest]; simp [strChars]]
        rw [pObjRest]
        have hkey : pStrBody (escChars k.data ++ ('"' :: (':' :: ' ' ::
            (printVal i v ++ (printObjRest i fs ++
              ('\n' :: (spaces j ++ (braceC :: rest)))))))) =
            some (k.data, ':' :: ' ' :: (printVal i v ++ (printObjRest i fs ++
              ('\n' :: (spaces j ++ (braceC :: rest)))))) :=
          pStrBody_escape k.data _
        have hAv : pVal f (' ' :: (printVal i v ++ (printObjRest i fs ++
            ('\n' :: (spaces j ++ (braceC :: rest)))))) =
            some (v, printObjRest i fs ++ ('\n' :: (spaces j ++ (braceC :: rest)))) := by
          apply A v (by rw [sizeF] at hfs; omega) i
          · rw [skipWs_space, skipWs_printVal]
          · exact objRest_not_digit _ _ _
        have hC : pObjRest f (printObjRest i fs ++
            ('\n' :: (spaces j ++ (braceC :: rest)))) = some (fs, rest) :=
          C fs (by rw [sizeF] at hfs; omega) i j rest
        simp [skipWs_comma, skipWs_newline, skipWs_spaces, skipWs_quote, skipWs_colon,
          hkey, hAv, hC, string_mk_data,
          show ¬(',' = braceC) from by decide, show ¬('"' = braceC) from by decide]

theorem spaces_length (n : Nat) : (spaces n).length = n := by
  induction n with
  | zero => rfl
  | succ n ih => rw [spaces, List.length_cons, ih]

theorem intChars_ne_nil (n : Int) : intChars n ≠ [] := by
  unfold intChars
  by_cases hn : n < 0
  · rw [if_pos hn]; simp
  · rw [if_neg hn]; exact natChars_ne_nil _

mutual
theorem sizeJ_le_printVal : ∀ (v : Json) (ind : Nat), sizeJ v ≤ (printVal ind v).length
  | .null, ind => by rw [sizeJ, printVal]; decide
  | .bool true, ind => by rw [sizeJ, printVal]; decide
  | .bool false, ind => by rw [sizeJ, printVal]; decide
  | .num n, ind => by
    rw [sizeJ, printVal]
    have := List.length_pos.2 (intChars_ne_nil n)
    omega
  | .str s, ind => by
    rw [sizeJ, printVal]
    simp [strChars]
  | .arr .nil, ind => by rw [sizeJ, sizeL, printVal]; decide
  | .arr (.cons x xs), ind => by
    have h1 := sizeJ_le_printVal x (ind + 2)
    have h2 := sizeL_le_printArrRest xs (ind + 2)
    rw [sizeJ, sizeL, printVal]
    simp only [List.length_cons, List.length_append, spaces_length]
    omega
  | .obj .fnil, ind => by rw [sizeJ, sizeF, printVal]; decide
  | .obj (.fcons k v fs), ind => by
    have h1 := sizeJ_le_printVal v (ind + 2)
    have h2 := sizeF_le_printObjRest fs (ind + 2)
    rw [sizeJ, sizeF, printVal]
    simp only [List.length_cons, List.length_append, spaces_length]
    omega
theorem sizeL_le_printArrRest : ∀ (xs : JsonList) (ind : Nat),
    sizeL xs ≤ (printArrRest ind xs).length + 1
  | .nil, ind => by rw [sizeL, printArrRest]; decide
  | .cons x xs, ind => by
    have h1 := sizeJ_le_printVal x ind
    have h2 := sizeL_le_printArrRest xs ind
    rw [sizeL, printArrRest]
    simp only [List.length_cons, List.length_append, spaces_length]
    omega
theorem sizeF_le_printObjRest : ∀ (fs : JsonFields) (ind : Nat),
    sizeF fs ≤ (printObjRest ind fs).length + 1
  | .fnil, ind => by rw [sizeF, printObjRest]; decide
  | .fcons k v fs, ind => by
    have h1 := sizeJ_le_printVal v ind
    have h2 := sizeF_le_printObjRest fs ind
    rw [sizeF, printObjRest]
    simp only [List.length_cons, List.length_append, spaces_length]
    omega
end

theorem jsonLoad_printVal (v : Json) : jsonLoad (printVal 0 v) = some v := by
  unfold jsonLoad
  have hsize : sizeJ v ≤ (printVal 0 v).length + 1 :=
    le_trans (sizeJ_le_printVal v 0) (Nat.le_succ _)
  have hparse : pVal ((printVal 0 v).length + 1) (printVal 0 v) = some (v, []) := by
    apply (parse_print_round ((printVal 0 v).length + 1)).1 v hsize 0 []
    · rw [List.append_nil]
      have := skipWs_printVal 0 v []
      rw [List.append_nil] at this
      exact this
    · rfl
  rw [hparse]
  rfl

/-- C7: however many records are accumulated through `add_result` — each one
timestamped at insertion — the JSON text written by `save_json` parses back
to exactly the same ordered list of records with identical field values. -/
theorem save_json_round_trip (entries : List (JsonFields × String)) :
    jsonLoad (save_json_content (reporter_results entries)) =
      some (.arr (jlOfList (reporter_results entries))) :=
  jsonLoad_printVal (.arr (jlOfList (reporter_results entries)))
